import Mathlib

/-!
# Simple-Logger: a shallow embedding of `logger.h` and its properties

The header defines an all-static `Logger` class (minimum level, console stream
pointer, optional log file, mutex) and five `LOG_*` convenience wrappers that
render a streamed expression into a string before calling `Logger::log`.

Everything the code reads from its surroundings is an explicit oracle in `Env`:
the wall clock (one `struct tm` per call of `logPrefix`), the outcome of each
`std::ofstream::open`, and the build flag `LOGGING_ENABLED`.  Everything the code
mutates is a field of `World`: the three static members, the characters received
by every `std::ostream`, and the contents of every file.
-/

namespace SimpleLogger

/-! ## Severity model (`enum class LogLevel`) -/

/-- Severity levels in the declaration order of `enum class LogLevel`. -/
inductive LogLevel where
  | DEBUG
  | INFO
  | WARNING
  | ERROR
  | CRITICAL
  deriving DecidableEq, Repr

/-- Underlying enumerator value; the comparison `level >= logLevel_` is on these. -/
def LogLevel.toNat : LogLevel → Nat
  | .DEBUG => 0
  | .INFO => 1
  | .WARNING => 2
  | .ERROR => 3
  | .CRITICAL => 4

/-! ## Standard-library text rendering used by the header -/

/-- Character of one digit value: `0`..`9`, then lowercase `a`..`f`, as the
iostream integer inserters produce without `std::uppercase`. -/
def digitChar (d : Nat) : Char :=
  if d < 10 then Char.ofNat (48 + d) else Char.ofNat (87 + d)

/-- Most significant digit first; `fuel` bounds the number of digits. -/
def toDigitsFuel (base : Nat) : Nat → Nat → List Char → List Char
  | 0, _, acc => acc
  | fuel + 1, n, acc =>
    if n < base then digitChar n :: acc
    else toDigitsFuel base fuel (n / base) (digitChar (n % base) :: acc)

/-- Digits of `n` in `base`, no leading zeros, no base marker (`0` gives one digit). -/
def natDigits (base n : Nat) : List Char :=
  toDigitsFuel base (n + 1) n []

/-- Decimal rendering of an unsigned value. -/
def decString (n : Nat) : String := String.mk (natDigits 10 n)

/-- Lowercase hexadecimal rendering of an unsigned value (no `0x`: `showbase` is off). -/
def hexString (n : Nat) : String := String.mk (natDigits 16 n)

/-- Two-column zero-padded decimal, as the `%m %d %H %M %S` conversions print. -/
def pad2 (n : Nat) : String :=
  if n < 10 then "0" ++ decString n else decString n

/-- The fields of `struct tm` that the format string reads. -/
structure Tm where
  tm_sec : Nat
  tm_min : Nat
  tm_hour : Nat
  tm_mday : Nat
  tm_mon : Nat
  tm_year : Nat
  deriving DecidableEq, Repr

/-- Rendering of `std::put_time(&timeinfo, "%Y-%m-%d %H:%M:%S")`: `%Y` is the year
`1900 + tm_year` in decimal, `%m` is `tm_mon + 1`, the rest are the fields themselves. -/
def put_time (t : Tm) : String :=
  decString (1900 + t.tm_year) ++ "-" ++ pad2 (t.tm_mon + 1) ++ "-" ++ pad2 t.tm_mday
    ++ " " ++ pad2 t.tm_hour ++ ":" ++ pad2 t.tm_min ++ ":" ++ pad2 t.tm_sec

/-- A calendar reading within the ranges of `struct tm` whose year has four digits. -/
def Tm.inRange (t : Tm) : Prop :=
  t.tm_sec ≤ 60 ∧ t.tm_min ≤ 59 ∧ t.tm_hour ≤ 23 ∧ 1 ≤ t.tm_mday ∧ t.tm_mday ≤ 31 ∧
    t.tm_mon ≤ 11 ∧ 1000 ≤ 1900 + t.tm_year ∧ 1900 + t.tm_year ≤ 9999

instance (t : Tm) : Decidable t.inRange := by
  unfold Tm.inRange; infer_instance

/-! ## Values that can be streamed, and `std::ostringstream` -/

/-- A finite IEEE-754 binary64 value `(-1)^neg * mant * 2^exp`. -/
structure Double where
  neg : Bool
  mant : Nat
  exp : Int
  deriving DecidableEq, Repr

/-- The printable operand types that occur at the call sites of the header. -/
inductive Value where
  | str (s : String)
  | int (n : Int)
  | uint32 (n : Nat)
  | double (d : Double)
  deriving DecidableEq, Repr

/-- One operand of a `<<` chain: a value, or the `std::hex` directive. -/
inductive Piece where
  | val (v : Value)
  | hex
  deriving DecidableEq, Repr

/-- The parts of a `std::ostringstream` that the header can observe: the buffer
and whether `basefield` is `hex` (it is `dec` on construction). -/
structure OStringStream where
  buf : String
  hexBase : Bool
  deriving DecidableEq, Repr

/-- A default-constructed `std::ostringstream oss;`. -/
def OStringStream.fresh : OStringStream := ⟨"", false⟩

/-- Result of `oss.str()`. -/
def OStringStream.str (o : OStringStream) : String := o.buf

/-- Signed decimal rendering, as `operator<<(int)` prints with `basefield == dec`. -/
def intDecString (n : Int) : String :=
  if n < 0 then "-" ++ decString n.natAbs else decString n.natAbs

/-- Largest `k` with `den * base^k ≤ num`, counted upwards from `k`. -/
def logUp (base num : Nat) : Nat → Nat → Nat → Nat
  | 0, _, k => k
  | fuel + 1, den, k => if den * base ≤ num then logUp base num fuel (den * base) (k + 1) else k

/-- Smallest `j` with `den ≤ num * base^j`, counted upwards from `j`. -/
def logDown (base den : Nat) : Nat → Nat → Nat → Nat
  | 0, _, j => j
  | fuel + 1, num, j => if num < den then logDown base den fuel (num * base) (j + 1) else j

/-- Floor of the logarithm of the positive rational `num / den`. -/
def floorLog (base num den : Nat) : Int :=
  if den ≤ num then (logUp base num (num + 1) den 0 : Nat)
  else -((logDown base den (den + 1) num 0 : Nat) : Int)

/-- Quotient `a / b` rounded to nearest, ties to the even quotient. -/
def roundDiv (a b : Nat) : Nat :=
  let q := a / b
  let r := a % b
  if b < 2 * r ∨ (2 * r = b ∧ q % 2 = 1) then q + 1 else q

/-- Drop trailing `0` characters of a fraction part. -/
def stripZeros (cs : List Char) : List Char :=
  (cs.reverse.dropWhile (· = '0')).reverse

/-- An integer part followed by `.` and the fraction, the point omitted when the
stripped fraction is empty (the `%g` style without the `#` flag). -/
def joinFraction (ip fp : List Char) : List Char :=
  match stripZeros fp with
  | [] => ip
  | f => ip ++ '.' :: f

/-- The exponent suffix of the `%e` style: sign and at least two digits. -/
def expSuffix (k : Int) : List Char :=
  let ds := natDigits 10 k.natAbs
  'e' :: (if k < 0 then '-' else '+') :: (if k.natAbs < 10 then '0' :: ds else ds)

/-- Rendering of `operator<<(double)` with the default `floatfield` and precision 6,
that is `%g` with six significant digits, for a finite value. -/
def fmtDouble (d : Double) : String :=
  let sign := if d.neg then ['-'] else []
  if d.mant = 0 then String.mk (sign ++ ['0'])
  else
    let num := if 0 ≤ d.exp then d.mant * 2 ^ d.exp.toNat else d.mant
    let den := if 0 ≤ d.exp then 1 else 2 ^ (-d.exp).toNat
    let k0 := floorLog 10 num den
    let s := 5 - k0
    let D0 := if 0 ≤ s then roundDiv (num * 10 ^ s.toNat) den
              else roundDiv num (den * 10 ^ (-s).toNat)
    let k := if D0 = 10 ^ 6 then k0 + 1 else k0
    let ds := natDigits 10 (if D0 = 10 ^ 6 then 10 ^ 5 else D0)
    if -4 ≤ k ∧ k < 6 then
      if 0 ≤ k then
        String.mk (sign ++ joinFraction (ds.take (k.toNat + 1)) (ds.drop (k.toNat + 1)))
      else
        String.mk (sign ++ joinFraction ['0'] (List.replicate ((-k).toNat - 1) '0' ++ ds))
    else
      String.mk (sign ++ joinFraction (ds.take 1) (ds.drop 1) ++ expSuffix k)

/-- The inserter `oss << value` for each operand type.  Integers honour `basefield`;
a negative `int` in hexadecimal prints its 32-bit two's-complement pattern. -/
def OStringStream.put (o : OStringStream) : Value → OStringStream
  | .str s => { o with buf := o.buf ++ s }
  | .int n =>
    if o.hexBase then { o with buf := o.buf ++ hexString (n % 2 ^ 32).toNat }
    else { o with buf := o.buf ++ intDecString n }
  | .uint32 n =>
    if o.hexBase then { o with buf := o.buf ++ hexString n }
    else { o with buf := o.buf ++ decString n }
  | .double d => { o with buf := o.buf ++ fmtDouble d }

/-- One step of a `<<` chain: insert a value, or let `std::hex` set `basefield`. -/
def OStringStream.push (o : OStringStream) : Piece → OStringStream
  | .val v => o.put v
  | .hex => { o with hexBase := true }

/-- The chain `oss << p₁ << p₂ << ...`, evaluated left to right. -/
def OStringStream.pushAll (o : OStringStream) (ps : List Piece) : OStringStream :=
  ps.foldl OStringStream.push o

/-! ## Writer state and its surroundings -/

/-- The `std::ostream` objects `outputStream_` can point at: the two standard
streams and any caller-owned stream, identified by a number. -/
inductive OStream where
  | cout
  | cerr
  | user (id : Nat)
  deriving DecidableEq, Repr

/-- What the code reads from outside: the build flag, the successive readings of
the local clock (reading `i` is what the `i`-th execution of `logPrefix` obtains from
`system_clock::now` and `localtime_s`), and whether the `i`-th call of
`std::ofstream::open` on a given path succeeds. -/
structure Env where
  LOGGING_ENABLED : Bool
  clock : Nat → Tm
  openOk : Nat → String → Bool

/-- Everything the code can change.  `logLevel_`, `outputStream_`, `logFile_` are the
static members (`logFile_` is `some path` while the `std::ofstream` is open);
`streams` and `files` are the characters received so far by each stream and file;
`clockReads` and `opens` count the oracle readings consumed. -/
structure World where
  logLevel_ : LogLevel
  outputStream_ : OStream
  logFile_ : Option String
  streams : OStream → String
  files : String → String
  clockReads : Nat
  opens : Nat

/-- State at program start: the out-of-class initialisers of the static members,
with nothing written yet. -/
def World.initial : World :=
  { logLevel_ := .INFO, outputStream_ := .cout, logFile_ := none,
    streams := fun _ => "", files := fun _ => "", clockReads := 0, opens := 0 }

/-- The call `logFile_.is_open()`. -/
def World.is_open (w : World) : Bool := w.logFile_.isSome

/-- Append `text` to the stream `o`. -/
def World.writeStream (w : World) (o : OStream) (text : String) : World :=
  { w with streams := fun x => if x = o then w.streams o ++ text else w.streams x }

/-- Append `text` to the file at `path`. -/
def World.writeFile (w : World) (path : String) (text : String) : World :=
  { w with files := fun x => if x = path then w.files path ++ text else w.files x }

/-- The insertion `logFile_ << text` (with the flush of `std::endl`): appended to
the attached file; a closed `std::ofstream` drops it. -/
def World.writeLogFile (w : World) (text : String) : World :=
  match w.logFile_ with
  | some path => w.writeFile path text
  | none => w

/-- The call `logFile_.close()`. -/
def World.close (w : World) : World := { w with logFile_ := none }

/-- The call `logFile_.open(filename, out | app)` on a closed stream: the oracle
decides the outcome; append mode keeps the existing contents. -/
def World.open (env : Env) (w : World) (filename : String) : World :=
  if env.openOk w.opens filename then
    { w with logFile_ := some filename, opens := w.opens + 1 }
  else
    { w with opens := w.opens + 1 }

/-! ## The `Logger` class -/

/-- Model of `Logger::setLogLevel`. -/
def Logger.setLogLevel (env : Env) (level : LogLevel) (w : World) : World :=
  if env.LOGGING_ENABLED then { w with logLevel_ := level } else w

/-- Model of `Logger::setOutputStream` (not guarded by the build flag). -/
def Logger.setOutputStream (_env : Env) (stream : OStream) (w : World) : World :=
  { w with outputStream_ := stream }

/-- Model of `Logger::setLogFile`. -/
def Logger.setLogFile (env : Env) (filename : String) (w : World) : World :=
  if env.LOGGING_ENABLED then
    let w1 := if w.is_open then w.close else w
    let w2 := w1.open env filename
    if !w2.is_open then
      w2.writeStream .cerr ("Failed to open log file: " ++ filename ++ "\n")
    else w2
  else w

/-- The severity tag that the `switch` of `logPrefix` appends. -/
def levelTag : LogLevel → String
  | .DEBUG => "[DEBUG]: "
  | .INFO => "[INFO]: "
  | .WARNING => "[WARNING]: "
  | .ERROR => "[ERROR]: "
  | .CRITICAL => "[CRITICAL]: "

/-- Model of `Logger::logPrefix`: reads the clock once, returns the rendered
prefix together with the world in which that reading is consumed. -/
def Logger.logPrefix (env : Env) (level : LogLevel) (w : World) : String × World :=
  let timeinfo := env.clock w.clockReads
  (put_time timeinfo ++ " " ++ levelTag level, { w with clockReads := w.clockReads + 1 })

/-- Model of `Logger::stringify`: a fresh string stream, one insertion, `str()`. -/
def Logger.stringify (value : Value) : String :=
  (OStringStream.fresh.put value).str

/-- Model of `Logger::log`.  The two output statements each evaluate
`logPrefix(level)` and `stringify(message)` themselves. -/
def Logger.log (env : Env) (level : LogLevel) (message : Value) (w : World) : World :=
  if env.LOGGING_ENABLED then
    if level.toNat ≥ w.logLevel_.toNat then
      let (p1, w1) := Logger.logPrefix env level w
      let w2 := w1.writeStream w1.outputStream_ (p1 ++ Logger.stringify message ++ "\n")
      if w2.is_open then
        let (p2, w3) := Logger.logPrefix env level w2
        w3.writeLogFile (p2 ++ Logger.stringify message ++ "\n")
      else w2
    else w
  else w

/-- The five wrappers `LOG_DEBUG` .. `LOG_CRITICAL`: with logging compiled in, a
fresh string stream receives the operand chain and its `str()` is logged at the
wrapper level; compiled out, the wrapper expands to nothing. -/
def LOG (env : Env) (level : LogLevel) (message : List Piece) (w : World) : World :=
  if env.LOGGING_ENABLED then
    let oss := OStringStream.fresh.pushAll message
    Logger.log env level (.str oss.str) w
  else w

/-- Expansion of `LOG_DEBUG(message)`. -/
def LOG_DEBUG (env : Env) (message : List Piece) (w : World) : World :=
  LOG env .DEBUG message w

/-- Expansion of `LOG_INFO(message)`. -/
def LOG_INFO (env : Env) (message : List Piece) (w : World) : World :=
  LOG env .INFO message w

/-- Expansion of `LOG_WARNING(message)`. -/
def LOG_WARNING (env : Env) (message : List Piece) (w : World) : World :=
  LOG env .WARNING message w

/-- Expansion of `LOG_ERROR(message)`. -/
def LOG_ERROR (env : Env) (message : List Piece) (w : World) : World :=
  LOG env .ERROR message w

/-- Expansion of `LOG_CRITICAL(message)`. -/
def LOG_CRITICAL (env : Env) (message : List Piece) (w : World) : World :=
  LOG env .CRITICAL message w

/-- A call the application can make on the facility. -/
inductive Op where
  | setLogLevel (level : LogLevel)
  | setOutputStream (stream : OStream)
  | setLogFile (filename : String)
  | log (level : LogLevel) (message : Value)
  | logVia (level : LogLevel) (message : List Piece)
  deriving DecidableEq, Repr

/-- Effect of one call. -/
def Op.run (env : Env) (w : World) : Op → World
  | .setLogLevel level => Logger.setLogLevel env level w
  | .setOutputStream stream => Logger.setOutputStream env stream w
  | .setLogFile filename => Logger.setLogFile env filename w
  | .log level message => Logger.log env level message w
  | .logVia level message => LOG env level message w

/-- Effect of a sequence of calls, first to last. -/
def runOps (env : Env) (w : World) (ops : List Op) : World :=
  ops.foldl (Op.run env) w

/-- Number of newline characters in a text. -/
def newlines (s : String) : Nat := s.data.count '\n'

/-! ## Reference renderings, written from the documented formats -/

/-- Exactly `width` decimal digit characters of `n`, most significant first,
padded with `0` on the left. -/
def fixedWidth (width n : Nat) : List Char :=
  (List.range width).reverse.map (fun i => Char.ofNat (48 + n / 10 ^ i % 10))

/-- The documented timestamp layout `YYYY-MM-DD HH:MM:SS`: a four-digit year and
two-digit zero-padded month, day, hour, minute and second. -/
def specTimestamp (year month day hour minute second : Nat) : String :=
  String.mk (fixedWidth 4 year ++ '-' :: fixedWidth 2 month ++ '-' :: fixedWidth 2 day
    ++ ' ' :: fixedWidth 2 hour ++ ':' :: fixedWidth 2 minute ++ ':' :: fixedWidth 2 second)

/-- Whether the call is a `setLogFile`. -/
def Op.isSetLogFile : Op → Bool
  | .setLogFile _ => true
  | _ => false

/-- The stream named by the last `setOutputStream` of a call sequence, or `start`
when there is none. -/
def lastSink (start : OStream) (ops : List Op) : OStream :=
  ops.foldl (fun cur op => match op with
    | .setOutputStream stream => stream
    | _ => cur) start

/-- A sample clock: reading `i` is 2024-01-02 03:04:05 plus `i` seconds. -/
def sampleClock (i : Nat) : Tm :=
  { tm_sec := 5 + i, tm_min := 4, tm_hour := 3, tm_mday := 2, tm_mon := 0, tm_year := 124 }

/-- A sample surrounding with logging compiled in, the sample clock, and a file
system on which every path except `/nonexistent/x.log` can be opened. -/
def sampleEnv : Env :=
  { LOGGING_ENABLED := true, clock := sampleClock,
    openOk := fun _ path => decide (path ≠ "/nonexistent/x.log") }

/-- The sample surrounding with logging compiled out. -/
def disabledEnv : Env := { sampleEnv with LOGGING_ENABLED := false }

/-- A surrounding in which every open fails. -/
def noFileEnv : Env := { sampleEnv with openOk := fun _ _ => false }

/-! ## Threads

Each call is split into the actions that are separate library calls in the
source; a thread executes one action per step, and a schedule picks which thread
moves next.  `mutex_` is held by at most one thread; constructing the
`std::lock_guard` in `Logger::log` waits while another thread holds it.  The three
setters contain no `std::lock_guard`. -/

/-- Where a thread stands.  The positions of `Logger::log` carry its arguments (and,
inside the console statement, the stream that `*outputStream_` named when the
statement began); those of `Logger::setLogFile` carry the file name. -/
inductive Pc where
  | idle
  | acquire (level : LogLevel) (message : Value)
  | conPrefix (level : LogLevel) (message : Value)
  | conText (level : LogLevel) (message : Value) (o : OStream)
  | conEndl (level : LogLevel) (message : Value) (o : OStream)
  | fileTest (level : LogLevel) (message : Value)
  | filePrefix (level : LogLevel) (message : Value)
  | fileText (level : LogLevel) (message : Value)
  | fileEndl (level : LogLevel) (message : Value)
  | release (level : LogLevel) (message : Value)
  | sClose (filename : String)
  | sOpen (filename : String)
  | sCheck (filename : String)
  | sDiag (filename : String)
  deriving DecidableEq, Repr

/-- A thread: its position and the calls it has still to make. -/
structure Thread where
  pc : Pc
  todo : List Op

/-- The process: the shared world, the holder of `mutex_`, and the threads. -/
structure Sys where
  world : World
  mutex : Option Nat
  threads : Nat → Thread

/-- Replace thread `t`. -/
def Sys.setThread (s : Sys) (t : Nat) (th : Thread) : Sys :=
  { s with threads := fun i => if i = t then th else s.threads i }

/-- Thread `t` moves to position `pc`. -/
def Sys.goto (s : Sys) (t : Nat) (pc : Pc) : Sys :=
  s.setThread t { s.threads t with pc := pc }

/-- Thread `t` enters its next call `op`: the first action of the call. -/
def enter (env : Env) (t : Nat) (s : Sys) (op : Op) (rest : List Op) : Sys :=
  match op with
  | .setLogLevel level =>
    { s with world := Logger.setLogLevel env level s.world }.setThread t ⟨.idle, rest⟩
  | .setOutputStream stream =>
    { s with world := Logger.setOutputStream env stream s.world }.setThread t ⟨.idle, rest⟩
  | .setLogFile filename =>
    if env.LOGGING_ENABLED then
      if s.world.is_open then s.setThread t ⟨.sClose filename, rest⟩
      else s.setThread t ⟨.sOpen filename, rest⟩
    else s.setThread t ⟨.idle, rest⟩
  | .log level message =>
    if env.LOGGING_ENABLED ∧ level.toNat ≥ s.world.logLevel_.toNat then
      s.setThread t ⟨.acquire level message, rest⟩
    else s.setThread t ⟨.idle, rest⟩
  | .logVia level message =>
    if env.LOGGING_ENABLED ∧ level.toNat ≥ s.world.logLevel_.toNat then
      s.setThread t ⟨.acquire level (.str (OStringStream.fresh.pushAll message).str), rest⟩
    else s.setThread t ⟨.idle, rest⟩

/-- One action of thread `t`.  A thread with nothing to do, or waiting for the
mutex, leaves the process as it is. -/
def step (env : Env) (s : Sys) (t : Nat) : Sys :=
  match (s.threads t).pc with
  | .idle =>
    match (s.threads t).todo with
    | [] => s
    | op :: rest => enter env t s op rest
  | .acquire level message =>
    match s.mutex with
    | none => { s with mutex := some t }.goto t (.conPrefix level message)
    | some _ => s
  | .conPrefix level message =>
    let (p, w1) := Logger.logPrefix env level s.world
    { s with world := w1.writeStream w1.outputStream_ p }.goto t
      (.conText level message w1.outputStream_)
  | .conText level message o =>
    { s with world := s.world.writeStream o (Logger.stringify message) }.goto t
      (.conEndl level message o)
  | .conEndl level message o =>
    { s with world := s.world.writeStream o "\n" }.goto t (.fileTest level message)
  | .fileTest level message =>
    if s.world.is_open then s.goto t (.filePrefix level message)
    else s.goto t (.release level message)
  | .filePrefix level message =>
    let (p, w1) := Logger.logPrefix env level s.world
    { s with world := w1.writeLogFile p }.goto t (.fileText level message)
  | .fileText level message =>
    { s with world := s.world.writeLogFile (Logger.stringify message) }.goto t
      (.fileEndl level message)
  | .fileEndl level message =>
    { s with world := s.world.writeLogFile "\n" }.goto t (.release level message)
  | .release _ _ => { s with mutex := none }.goto t .idle
  | .sClose filename => { s with world := s.world.close }.goto t (.sOpen filename)
  | .sOpen filename =>
    { s with world := World.open env s.world filename }.goto t (.sCheck filename)
  | .sCheck filename =>
    if !s.world.is_open then s.goto t (.sDiag filename) else s.goto t .idle
  | .sDiag filename =>
    let diagnostic := "Failed to open log file: " ++ filename ++ "\n"
    { s with world := s.world.writeStream OStream.cerr diagnostic }.goto t .idle

/-- The process after the threads named by `schedule` have moved, one action each,
in that order. -/
def runSchedule (env : Env) (s : Sys) (schedule : List Nat) : Sys :=
  schedule.foldl (step env) s

/-- The process at start: mutex free, thread `t` about to run `prog t`. -/
def Sys.start (w : World) (prog : Nat → List Op) : Sys :=
  { world := w, mutex := none, threads := fun t => ⟨.idle, prog t⟩ }

/-- Whether the call is a `Logger::log`, direct or through a wrapper. -/
def Op.isLog : Op → Bool
  | .log _ _ => true
  | .logVia _ _ => true
  | _ => false

/-- The level and rendered text of a call that writes under minimum level
`minLevel`, if it is one. -/
def Op.emits (minLevel : LogLevel) : Op → Option (LogLevel × Value)
  | .log level message =>
    if level.toNat ≥ minLevel.toNat then some (level, message) else none
  | .logVia level message =>
    if level.toNat ≥ minLevel.toNat then
      some (level, .str (OStringStream.fresh.pushAll message).str) else none
  | _ => none

/-- One finished writing call: the thread, the level and text, and the index of the
clock reading stamped on its console line. -/
structure Rec where
  tid : Nat
  level : LogLevel
  message : Value
  reading : Nat
  deriving DecidableEq, Repr

/-- The line a call writes when stamped with clock reading `r`. -/
def lineAt (env : Env) (level : LogLevel) (message : Value) (r : Nat) : String :=
  put_time (env.clock r) ++ " " ++ levelTag level ++ Logger.stringify message ++ "\n"

/-- The console lines of a sequence of finished calls, concatenated. -/
def consoleLines (env : Env) (recs : List Rec) : String :=
  recs.foldl (fun acc r => acc ++ lineAt env r.level r.message r.reading) ""

/-- The file lines of a sequence of finished calls (each stamped with the reading
after its console line), concatenated. -/
def fileLines (env : Env) (recs : List Rec) : String :=
  recs.foldl (fun acc r => acc ++ lineAt env r.level r.message (r.reading + 1)) ""

/-- Whether a thread at this position holds `mutex_` (it is inside the guarded
block of `Logger::log`). -/
def Pc.holds : Pc → Bool
  | .conPrefix _ _ => true
  | .conText _ _ _ => true
  | .conEndl _ _ _ => true
  | .fileTest _ _ => true
  | .filePrefix _ _ => true
  | .fileText _ _ => true
  | .fileEndl _ _ => true
  | .release _ _ => true
  | _ => false

/-- Whether the position belongs to `Logger::log` (or is between calls), names the
stream `o` inside the console statement, and is inside the file statement only when
a file is open (`fopen`). -/
def Pc.inLog (o : OStream) (fopen : Bool) : Pc → Prop
  | .idle => True
  | .acquire _ _ => True
  | .conPrefix _ _ => True
  | .conText _ _ o1 => o1 = o
  | .conEndl _ _ o1 => o1 = o
  | .fileTest _ _ => True
  | .filePrefix _ _ => fopen = true
  | .fileText _ _ => fopen = true
  | .fileEndl _ _ => fopen = true
  | .release _ _ => True
  | _ => False

/-- The writing call a thread is in the middle of, if any. -/
def Pc.inflight : Pc → List (LogLevel × Value)
  | .acquire l m => [(l, m)]
  | .conPrefix l m => [(l, m)]
  | .conText l m _ => [(l, m)]
  | .conEndl l m _ => [(l, m)]
  | .fileTest l m => [(l, m)]
  | .filePrefix l m => [(l, m)]
  | .fileText l m => [(l, m)]
  | .fileEndl l m => [(l, m)]
  | .release l m => [(l, m)]
  | _ => []

/-- The writing calls among `ops` under minimum level `minLevel`, in order. -/
def emitted (minLevel : LogLevel) (ops : List Op) : List (LogLevel × Value) :=
  ops.filterMap (Op.emits minLevel)

/-- The finished calls of thread `t`, in the order they were written. -/
def callsBy (recs : List Rec) (t : Nat) : List (LogLevel × Value) :=
  (recs.filter (fun r => r.tid = t)).map (fun r => (r.level, r.message))

/-- The timestamp and tag that open a line stamped with clock reading `r`. -/
def prefixAt (env : Env) (level : LogLevel) (r : Nat) : String :=
  put_time (env.clock r) ++ " " ++ levelTag level

/-- For the holder of the mutex at position `pc`, whose console line is stamped with
reading `r`: the part of its console line and of its file line written so far, and
the number of clock readings consumed so far.  `fopen` says whether a file is open. -/
def partials (env : Env) (fopen : Bool) (r : Nat) : Pc → String × String × Nat
  | .conText l _ _ => (prefixAt env l r, "", r + 1)
  | .conEndl l m _ => (prefixAt env l r ++ Logger.stringify m, "", r + 1)
  | .fileTest l m => (lineAt env l m r, "", r + 1)
  | .filePrefix l m => (lineAt env l m r, "", r + 1)
  | .fileText l m => (lineAt env l m r, prefixAt env l (r + 1), r + 2)
  | .fileEndl l m =>
    (lineAt env l m r, prefixAt env l (r + 1) ++ Logger.stringify m, r + 2)
  | .release l m =>
    if fopen then (lineAt env l m r, lineAt env l m (r + 1), r + 2)
    else (lineAt env l m r, "", r + 1)
  | _ => ("", "", r)

/-- The position of the thread holding the mutex (`idle` when it is free). -/
def Sys.holderPc (s : Sys) : Pc :=
  match s.mutex with
  | none => .idle
  | some t => (s.threads t).pc

/-- The sinks of world `w` hold the lines of the finished calls `recs`, in that order
on both, followed by what the holder of the mutex, at position `pc`, has written of
its own line. -/
def OutAt (env : Env) (w0 : World) (recs : List Rec) (w : World) (pc : Pc) : Prop :=
  ∃ r, w.clockReads = (partials env w0.is_open r pc).2.2 ∧
    w.streams w0.outputStream_ =
      w0.streams w0.outputStream_ ++ consoleLines env recs ++
        (partials env w0.is_open r pc).1 ∧
    ∀ p, w0.logFile_ = some p →
      w.files p = w0.files p ++ fileLines env recs ++ (partials env w0.is_open r pc).2.1

/-- The sink contents of a process, by `OutAt` at the position of the mutex holder. -/
def Out (env : Env) (w0 : World) (recs : List Rec) (s : Sys) : Prop :=
  OutAt env w0 recs s.world s.holderPc

/-- What holds of one thread: only `Logger::log` calls left, a position inside
`Logger::log`, and its finished, current and remaining writing calls together are
the writing calls of its program. -/
def ThreadOK (w0 : World) (prog : Nat → List Op) (recs : List Rec) (t : Nat)
    (th : Thread) : Prop :=
  (∀ op ∈ th.todo, op.isLog = true) ∧ th.pc.inLog w0.outputStream_ w0.is_open ∧
    callsBy recs t ++ th.pc.inflight ++ emitted w0.logLevel_ th.todo =
      emitted w0.logLevel_ (prog t)

/-- The invariant of a process whose threads only call `Logger::log`. -/
def Inv (env : Env) (w0 : World) (prog : Nat → List Op) (s : Sys) : Prop :=
  s.world.logLevel_ = w0.logLevel_ ∧ s.world.outputStream_ = w0.outputStream_ ∧
    s.world.logFile_ = w0.logFile_ ∧
    (∀ t, (s.threads t).pc.holds = true ↔ s.mutex = some t) ∧
    ∃ recs, (∀ t, ThreadOK w0 prog recs t (s.threads t)) ∧ Out env w0 recs s

/-- Whether each of the threads `0 .. n-1` has returned from its last call. -/
def Sys.finished (n : Nat) (s : Sys) : Prop :=
  ∀ t, t < n → (s.threads t).pc = .idle ∧ (s.threads t).todo = []

instance (n : Nat) (s : Sys) : Decidable (s.finished n) := by
  unfold Sys.finished; infer_instance

/-- An upper bound on the actions a thread at this position needs to return from its
current call when no other thread moves. -/
def Pc.rank : Pc → Nat
  | .idle => 0
  | .acquire _ _ => 9
  | .conPrefix _ _ => 8
  | .conText _ _ _ => 7
  | .conEndl _ _ _ => 6
  | .fileTest _ _ => 5
  | .filePrefix _ _ => 4
  | .fileText _ _ => 3
  | .fileEndl _ _ => 2
  | .release _ _ => 1
  | .sClose _ => 4
  | .sOpen _ => 3
  | .sCheck _ => 2
  | .sDiag _ => 1

/-- Thread `t` can move: it holds the mutex, or the mutex is free and it is outside
the guarded block. -/
def Ready (s : Sys) (t : Nat) : Prop :=
  ((s.threads t).pc.holds = true ∧ s.mutex = some t) ∨
    ((s.threads t).pc.holds = false ∧ s.mutex = none)

/-- Two sample threads, two writing calls each, with distinct texts. -/
def twoLoggers (t : Nat) : List Op :=
  if t = 0 then [.log .INFO (.str "a1"), .logVia .ERROR [.val (.str "a"), .val (.int 2)]]
  else if t = 1 then [.log .WARNING (.str "b1"), .log .CRITICAL (.str "b2")]
  else []

/-- A schedule for two threads in which each thread tries to take the mutex while
the other holds it, and which runs both to completion. -/
def interleaved : List Nat :=
  [0, 1, 1, 0, 1, 1, 1, 1, 1, 1, 1, 1, 0, 1, 1, 0, 0, 0, 0, 0, 0, 0, 0,
   1, 0, 0, 1, 1, 1, 1, 1, 1, 1, 1, 0, 0, 0, 0, 0, 0, 0, 0, 0]

/-- A schedule for the race: thread 0 runs up to the first file insertion of its
call, thread 1 then runs `setLogFile` from start to end, thread 0 finishes. -/
def racing : List Nat :=
  [0, 0, 0, 0, 0, 0, 0, 1, 1, 1, 1, 0, 0, 0]

/-- Sample threads for the race: thread 0 logs once, thread 1 calls `setLogFile`. -/
def loggerAndSetter (t : Nat) : List Op :=
  if t = 0 then [.log .ERROR (.str "a")]
  else if t = 1 then [.setLogFile "other.log"]
  else []

/-- The sample world after `setLogFile("log.log")` has opened the file. -/
def sampleOpenWorld : World := Logger.setLogFile sampleEnv "log.log" World.initial

/-! ## Properties -/

/-! ### Digits -/

theorem toDigitsFuel_eq (base : Nat) (hb : 2 ≤ base) :
    ∀ (fuel n : Nat) (acc : List Char), 0 < n → n < fuel →
      toDigitsFuel base fuel n acc = ((Nat.digits base n).reverse.map digitChar) ++ acc := by
  intro fuel
  induction fuel with
  | zero => intro n acc _ h; omega
  | succ fuel ih =>
    intro n acc hn hlt
    unfold toDigitsFuel
    by_cases h : n < base
    · simp [h, Nat.digits_of_lt base n (by omega) h]
    · have hdiv : 0 < n / base := Nat.div_pos (by omega) (by omega)
      have hlt2 : n / base < fuel := by
        have : n / base < n := Nat.div_lt_self hn (by omega)
        omega
      rw [if_neg h, ih (n / base) _ hdiv hlt2, Nat.digits_def' (by omega) hn]
      simp

theorem natDigits_eq (base : Nat) (hb : 2 ≤ base) (n : Nat) (hn : 0 < n) :
    natDigits base n = (Nat.digits base n).reverse.map digitChar := by
  unfold natDigits
  rw [toDigitsFuel_eq base hb (n + 1) n [] hn (by omega)]
  simp

theorem natDigits_zero (base : Nat) (hb : 2 ≤ base) : natDigits base 0 = ['0'] := by
  have h : 0 < base := by omega
  simp [natDigits, toDigitsFuel, h, digitChar]

theorem digitChar_ne_newline (d : Nat) (h : d < 16) : digitChar d ≠ '\n' := by
  interval_cases d <;> decide

theorem natDigits_mem (base : Nat) (hb : 2 ≤ base) (n : Nat) (c : Char)
    (hc : c ∈ natDigits base n) : ∃ d, d < base ∧ c = digitChar d := by
  rcases Nat.eq_zero_or_pos n with h0 | hpos
  · subst h0
    rw [natDigits_zero base hb] at hc
    refine ⟨0, by omega, ?_⟩
    simpa [digitChar] using hc
  · rw [natDigits_eq base hb n hpos] at hc
    simp only [List.mem_map, List.mem_reverse] at hc
    obtain ⟨d, hd, rfl⟩ := hc
    exact ⟨d, Nat.digits_lt_base (by omega) hd, rfl⟩

theorem natDigits_one (n : Nat) (h : n < 10) : natDigits 10 n = [digitChar n] := by
  simp [natDigits, toDigitsFuel, h]

theorem natDigits_two (n : Nat) (h1 : 10 ≤ n) (h2 : n < 100) :
    natDigits 10 n = [digitChar (n / 10), digitChar (n % 10)] := by
  rw [natDigits_eq 10 (by omega) n (by omega), Nat.digits_def' (by omega) (by omega),
    Nat.digits_of_lt 10 (n / 10) (by omega) (by omega)]
  simp

theorem natDigits_four (n : Nat) (h1 : 1000 ≤ n) (h2 : n ≤ 9999) :
    natDigits 10 n = fixedWidth 4 n := by
  rw [natDigits_eq 10 (by omega) n (by omega), Nat.digits_def' (by omega) (by omega),
    Nat.digits_def' (by omega) (by omega), Nat.digits_def' (by omega) (by omega),
    Nat.digits_of_lt 10 (n / 10 / 10 / 10) (by omega) (by omega)]
  have e1 : n / 10 / 10 / 10 = n / 1000 := by omega
  have e2 : n / 10 / 10 % 10 = n / 100 % 10 := by omega
  have e3 : n / 1000 % 10 = n / 1000 := by omega
  have l1 : n / 1000 < 10 := by omega
  have l2 : n / 100 % 10 < 10 := by omega
  have l3 : n / 10 % 10 < 10 := by omega
  have l4 : n % 10 < 10 := by omega
  simp [fixedWidth, List.range, List.range.loop, digitChar, e1, e2, e3, l1, l2, l3, l4]

theorem pad2_eq (n : Nat) (h : n < 100) : pad2 n = String.mk (fixedWidth 2 n) := by
  unfold pad2 decString
  by_cases h10 : n < 10
  · have e1 : n / 10 % 10 = 0 := by omega
    have e2 : n % 10 = n := by omega
    rw [if_pos h10, natDigits_one n h10]
    apply String.ext
    simp [fixedWidth, List.range, List.range.loop, digitChar, e1, e2, h10]
  · have e1 : n / 10 % 10 = n / 10 := by omega
    have l1 : n / 10 < 10 := by omega
    have l2 : n % 10 < 10 := by omega
    rw [if_neg h10, natDigits_two n (by omega) h]
    simp [fixedWidth, List.range, List.range.loop, digitChar, e1, l1, l2]

/-- Inside its range the rendered clock reading has the documented layout. -/
theorem put_time_eq_spec (t : Tm) (h : t.inRange) :
    put_time t = specTimestamp (1900 + t.tm_year) (t.tm_mon + 1) t.tm_mday t.tm_hour
      t.tm_min t.tm_sec := by
  obtain ⟨h1, h2, h3, h4, h5, h6, h7, h8⟩ := h
  unfold put_time specTimestamp
  rw [pad2_eq _ (by omega : t.tm_mon + 1 < 100), pad2_eq _ (by omega : t.tm_mday < 100),
    pad2_eq _ (by omega : t.tm_hour < 100), pad2_eq _ (by omega : t.tm_min < 100),
    pad2_eq _ (by omega : t.tm_sec < 100)]
  unfold decString
  rw [natDigits_four _ h7 h8]
  apply String.ext
  simp [String.data_append]

theorem fixedWidth_length (width n : Nat) : (fixedWidth width n).length = width := by
  simp [fixedWidth]

/-! ### Newline counting -/

theorem newlines_append (a b : String) : newlines (a ++ b) = newlines a + newlines b := by
  simp [newlines, String.data_append, List.count_append]

theorem newlines_natDigits (n : Nat) : (natDigits 10 n).count '\n' = 0 := by
  rw [List.count_eq_zero]
  intro hc
  obtain ⟨d, hd, he⟩ := natDigits_mem 10 (by omega) n _ hc
  exact digitChar_ne_newline d (by omega) he.symm

theorem newlines_decString (n : Nat) : newlines (decString n) = 0 := by
  simpa [newlines, decString] using newlines_natDigits n

theorem newlines_pad2 (n : Nat) : newlines (pad2 n) = 0 := by
  unfold pad2
  split
  · rw [newlines_append, newlines_decString]; rfl
  · exact newlines_decString n

theorem newlines_put_time (t : Tm) : newlines (put_time t) = 0 := by
  unfold put_time
  simp only [newlines_append, newlines_decString, newlines_pad2]
  rfl

theorem newlines_levelTag (l : LogLevel) : newlines (levelTag l) = 0 := by
  cases l <;> rfl

/-! ### Shape of one `Logger::log` call -/

theorem log_disabled (env : Env) (he : env.LOGGING_ENABLED = false) (level : LogLevel)
    (message : Value) (w : World) : Logger.log env level message w = w := by
  simp [Logger.log, he]

theorem log_filtered (env : Env) (level : LogLevel) (message : Value) (w : World)
    (h : level.toNat < w.logLevel_.toNat) : Logger.log env level message w = w := by
  have h2 : ¬ (level.toNat ≥ w.logLevel_.toNat) := by omega
  simp [Logger.log, h2]

theorem log_closed (env : Env) (he : env.LOGGING_ENABLED = true) (level : LogLevel)
    (message : Value) (w : World) (hpass : w.logLevel_.toNat ≤ level.toNat)
    (hclosed : w.logFile_ = none) :
    Logger.log env level message w =
      { w with
        streams := fun x => if x = w.outputStream_ then
          w.streams w.outputStream_ ++ (put_time (env.clock w.clockReads) ++ " " ++
            levelTag level ++ Logger.stringify message ++ "\n") else w.streams x
        clockReads := w.clockReads + 1 } := by
  simp [Logger.log, he, hpass, Logger.logPrefix, World.writeStream, World.is_open, hclosed]

theorem log_open (env : Env) (he : env.LOGGING_ENABLED = true) (level : LogLevel)
    (message : Value) (w : World) (hpass : w.logLevel_.toNat ≤ level.toNat)
    (path : String) (hopen : w.logFile_ = some path) :
    Logger.log env level message w =
      { w with
        streams := fun x => if x = w.outputStream_ then
          w.streams w.outputStream_ ++ (put_time (env.clock w.clockReads) ++ " " ++
            levelTag level ++ Logger.stringify message ++ "\n") else w.streams x
        files := fun x => if x = path then
          w.files path ++ (put_time (env.clock (w.clockReads + 1)) ++ " " ++
            levelTag level ++ Logger.stringify message ++ "\n") else w.files x
        clockReads := w.clockReads + 2 } := by
  simp [Logger.log, he, hpass, Logger.logPrefix, World.writeStream, World.is_open, hopen,
    World.writeLogFile, World.writeFile]

/-- The console sink after a passing call: the old characters followed by one line. -/
theorem log_console (env : Env) (he : env.LOGGING_ENABLED = true) (level : LogLevel)
    (message : Value) (w : World) (hpass : w.logLevel_.toNat ≤ level.toNat) :
    (Logger.log env level message w).streams w.outputStream_ =
      w.streams w.outputStream_ ++ (put_time (env.clock w.clockReads) ++ " " ++
        levelTag level ++ Logger.stringify message ++ "\n") := by
  cases hf : w.logFile_ with
  | none => rw [log_closed env he level message w hpass hf]; simp
  | some path => rw [log_open env he level message w hpass path hf]; simp

theorem log_other_streams (env : Env) (level : LogLevel) (message : Value) (w : World)
    (o : OStream) (ho : o ≠ w.outputStream_) :
    (Logger.log env level message w).streams o = w.streams o := by
  cases he : env.LOGGING_ENABLED with
  | false => rw [log_disabled env he]
  | true =>
    by_cases hpass : w.logLevel_.toNat ≤ level.toNat
    · cases hf : w.logFile_ with
      | none => rw [log_closed env he level message w hpass hf]; simp [ho]
      | some path => rw [log_open env he level message w hpass path hf]; simp [ho]
    · rw [log_filtered env level message w (by omega)]

theorem stringify_str (s : String) : Logger.stringify (.str s) = s := by
  simp [Logger.stringify, OStringStream.fresh, OStringStream.put, OStringStream.str]

/-- Claim C1: with logging compiled in and the levels ordered
DEBUG < INFO < WARNING < ERROR < CRITICAL, a call `Logger::log(L, msg)` under minimum
level `M` appends exactly one line to the console sink when `L >= M` (the old contents
followed by prefix, text and one line terminator, every other stream untouched; the
newline count grows by one plus the newlines the text itself carries), and otherwise
returns the world unchanged.  After `setLogLevel(CRITICAL)` the four lower levels
produce nothing and CRITICAL produces that one line. -/
theorem C1_level_filter (env : Env) (he : env.LOGGING_ENABLED = true) (L : LogLevel)
    (msg : Value) (w : World) :
    (LogLevel.DEBUG.toNat < LogLevel.INFO.toNat ∧ LogLevel.INFO.toNat < LogLevel.WARNING.toNat ∧
      LogLevel.WARNING.toNat < LogLevel.ERROR.toNat ∧
      LogLevel.ERROR.toNat < LogLevel.CRITICAL.toNat) ∧
    (w.logLevel_.toNat ≤ L.toNat →
      (Logger.log env L msg w).streams w.outputStream_ =
          w.streams w.outputStream_ ++ (put_time (env.clock w.clockReads) ++ " " ++
            levelTag L ++ Logger.stringify msg ++ "\n") ∧
        newlines ((Logger.log env L msg w).streams w.outputStream_) =
          newlines (w.streams w.outputStream_) + newlines (Logger.stringify msg) + 1 ∧
        (∀ o, o ≠ w.outputStream_ → (Logger.log env L msg w).streams o = w.streams o)) ∧
    (L.toNat < w.logLevel_.toNat → Logger.log env L msg w = w) ∧
    (L ≠ LogLevel.CRITICAL →
      Logger.log env L msg (Logger.setLogLevel env .CRITICAL w) =
        Logger.setLogLevel env .CRITICAL w) ∧
    (Logger.log env .CRITICAL msg (Logger.setLogLevel env .CRITICAL w)).streams w.outputStream_ =
      w.streams w.outputStream_ ++ (put_time (env.clock w.clockReads) ++ " " ++
        levelTag .CRITICAL ++ Logger.stringify msg ++ "\n") := by
  refine ⟨by decide, ?_, ?_, ?_, ?_⟩
  · intro hpass
    refine ⟨log_console env he L msg w hpass, ?_, ?_⟩
    · rw [log_console env he L msg w hpass]
      simp only [newlines_append, newlines_put_time, newlines_levelTag]
      have e1 : newlines " " = 0 := rfl
      have e2 : newlines "\n" = 1 := rfl
      omega
    · intro o ho
      exact log_other_streams env L msg w o ho
  · exact log_filtered env L msg w
  · intro hne
    apply log_filtered
    simp only [Logger.setLogLevel, he, if_true]
    cases L <;> simp_all [LogLevel.toNat]
  · have h := log_console env he .CRITICAL msg (Logger.setLogLevel env .CRITICAL w)
      (by simp [Logger.setLogLevel, he])
    simpa [Logger.setLogLevel, he] using h

/-- Instance of C1 on the sample surrounding: from the initial state (minimum level
INFO) a DEBUG call changes nothing and an ERROR call puts one line on `std::cout`. -/
theorem C1_level_filter_witness :
    sampleEnv.LOGGING_ENABLED = true ∧
    Logger.log sampleEnv .DEBUG (.str "quiet") World.initial = World.initial ∧
    (Logger.log sampleEnv .ERROR (.str "boom") World.initial).streams .cout =
      "2024-01-02 03:04:05 [ERROR]: boom\n" :=
  ⟨rfl,
   (C1_level_filter sampleEnv rfl .DEBUG (.str "quiet") World.initial).2.2.1 (by decide),
   ((C1_level_filter sampleEnv rfl .ERROR (.str "boom") World.initial).2.1 (by decide)).1.trans
     (by decide)⟩

/-- Claim C2: for a level that passes the filter and an already rendered text `s`,
the line appended to the console sink is the timestamp, one blank, the level tag, `s`
unmodified and the line terminator; the timestamp is the clock reading of the call in
the layout YYYY-MM-DD HH:MM:SS (19 characters: four-digit year, two-digit zero-padded
month, day, hour, minute, second); the five tags are as listed; and `stringify` is the
identity on a rendered string. -/
theorem C2_line_format (env : Env) (he : env.LOGGING_ENABLED = true) (L : LogLevel)
    (s : String) (w : World) (hpass : w.logLevel_.toNat ≤ L.toNat)
    (hrange : (env.clock w.clockReads).inRange) :
    (Logger.log env L (.str s) w).streams w.outputStream_ =
      w.streams w.outputStream_ ++
        (specTimestamp (1900 + (env.clock w.clockReads).tm_year)
            ((env.clock w.clockReads).tm_mon + 1) (env.clock w.clockReads).tm_mday
            (env.clock w.clockReads).tm_hour (env.clock w.clockReads).tm_min
            (env.clock w.clockReads).tm_sec ++ " " ++ levelTag L ++ s ++ "\n") ∧
    (specTimestamp (1900 + (env.clock w.clockReads).tm_year)
        ((env.clock w.clockReads).tm_mon + 1) (env.clock w.clockReads).tm_mday
        (env.clock w.clockReads).tm_hour (env.clock w.clockReads).tm_min
        (env.clock w.clockReads).tm_sec).length = 19 ∧
    (levelTag .DEBUG = "[DEBUG]: " ∧ levelTag .INFO = "[INFO]: " ∧
      levelTag .WARNING = "[WARNING]: " ∧ levelTag .ERROR = "[ERROR]: " ∧
      levelTag .CRITICAL = "[CRITICAL]: ") ∧
    Logger.stringify (.str s) = s := by
  refine ⟨?_, ?_, ⟨rfl, rfl, rfl, rfl, rfl⟩, stringify_str s⟩
  · rw [log_console env he L (.str s) w hpass, put_time_eq_spec _ hrange, stringify_str]
  · simp [specTimestamp, String.length, fixedWidth_length]

/-- Instance of C2 on the sample surrounding: `LOG_INFO("Starting program...")` of the
demonstration program at 2024-01-02 03:04:05. -/
theorem C2_line_format_witness :
    sampleEnv.LOGGING_ENABLED = true ∧
    World.initial.logLevel_.toNat ≤ LogLevel.INFO.toNat ∧
    (sampleEnv.clock World.initial.clockReads).inRange ∧
    (Logger.log sampleEnv .INFO (.str "Starting program...") World.initial).streams .cout =
      "2024-01-02 03:04:05 [INFO]: Starting program...\n" :=
  ⟨rfl, by decide, by decide,
   (C2_line_format sampleEnv rfl .INFO "Starting program..." World.initial (by decide)
     (by decide)).1.trans (by decide)⟩

/-! ### What a call leaves alone -/

theorem log_cases (env : Env) (level : LogLevel) (message : Value) (w : World) :
    Logger.log env level message w = w ∨
    (w.logFile_ = none ∧ ∃ text, Logger.log env level message w =
      { w with
        streams := fun x => if x = w.outputStream_ then w.streams w.outputStream_ ++ text
          else w.streams x
        clockReads := w.clockReads + 1 }) ∨
    (∃ path text text2, w.logFile_ = some path ∧ Logger.log env level message w =
      { w with
        streams := fun x => if x = w.outputStream_ then w.streams w.outputStream_ ++ text
          else w.streams x
        files := fun x => if x = path then w.files path ++ text2 else w.files x
        clockReads := w.clockReads + 2 }) := by
  cases he : env.LOGGING_ENABLED with
  | false => exact Or.inl (log_disabled env he level message w)
  | true =>
    by_cases hpass : w.logLevel_.toNat ≤ level.toNat
    · rcases Option.eq_none_or_eq_some w.logFile_ with hf | ⟨path, hf⟩
      · exact Or.inr (Or.inl ⟨hf, _, log_closed env he level message w hpass hf⟩)
      · exact Or.inr (Or.inr ⟨path, _, _, hf, log_open env he level message w hpass path hf⟩)
    · exact Or.inl (log_filtered env level message w (by omega))

theorem log_logFile (env : Env) (level : LogLevel) (message : Value) (w : World) :
    (Logger.log env level message w).logFile_ = w.logFile_ := by
  rcases log_cases env level message w with h | ⟨_, _, h⟩ | ⟨_, _, _, _, h⟩ <;> rw [h]

theorem log_opens (env : Env) (level : LogLevel) (message : Value) (w : World) :
    (Logger.log env level message w).opens = w.opens := by
  rcases log_cases env level message w with h | ⟨_, _, h⟩ | ⟨_, _, _, _, h⟩ <;> rw [h]

theorem log_files_closed (env : Env) (level : LogLevel) (message : Value) (w : World)
    (hclosed : w.logFile_ = none) : (Logger.log env level message w).files = w.files := by
  rcases log_cases env level message w with h | ⟨_, _, h⟩ | ⟨p, _, _, hp, _⟩
  · rw [h]
  · rw [h]
  · rw [hclosed] at hp; cases hp

theorem LOG_eq (env : Env) (level : LogLevel) (message : List Piece) (w : World) :
    LOG env level message w =
      Logger.log env level (.str (OStringStream.fresh.pushAll message).str) w := by
  cases he : env.LOGGING_ENABLED with
  | false => simp [LOG, he, log_disabled env he]
  | true => simp [LOG, he]

theorem run_logFile (env : Env) (w : World) (op : Op) (h : op.isSetLogFile = false) :
    (op.run env w).logFile_ = w.logFile_ := by
  cases op with
  | setLogLevel level => simp only [Op.run, Logger.setLogLevel]; split <;> rfl
  | setOutputStream stream => rfl
  | setLogFile filename => simp [Op.isSetLogFile] at h
  | log level message => exact log_logFile env level message w
  | logVia level message => simp only [Op.run, LOG_eq]; exact log_logFile env _ _ w

theorem runOps_logFile (env : Env) (ops : List Op) :
    ∀ w : World, (∀ op ∈ ops, op.isSetLogFile = false) →
      (runOps env w ops).logFile_ = w.logFile_ := by
  induction ops with
  | nil => intro w _; rfl
  | cons op rest ih =>
    intro w h
    have h1 : (runOps env (op.run env w) rest).logFile_ = (op.run env w).logFile_ :=
      ih (op.run env w) (fun o ho => h o (List.mem_cons_of_mem _ ho))
    have h2 := run_logFile env w op (h op (List.mem_cons_self _ _))
    simpa [runOps] using h1.trans h2

theorem setLogFile_success (env : Env) (he : env.LOGGING_ENABLED = true) (filename : String)
    (w : World) (hok : env.openOk w.opens filename = true) :
    Logger.setLogFile env filename w =
      { w with logFile_ := some filename, opens := w.opens + 1 } := by
  cases hf : w.logFile_ <;>
    simp [Logger.setLogFile, he, World.is_open, World.close, World.open, hok, hf]

theorem setLogFile_failure (env : Env) (he : env.LOGGING_ENABLED = true) (filename : String)
    (w : World) (hfail : env.openOk w.opens filename = false) :
    Logger.setLogFile env filename w =
      { w with
        logFile_ := none
        opens := w.opens + 1
        streams := fun x => if x = OStream.cerr then
          w.streams .cerr ++ ("Failed to open log file: " ++ filename ++ "\n")
          else w.streams x } := by
  cases hf : w.logFile_ <;>
    simp [Logger.setLogFile, he, World.is_open, World.close, World.open, hfail, hf,
      World.writeStream]

/-- Claim C3: once `setLogFile(filename)` has opened the file, then after any further
calls other than `setLogFile` the file is still the open log file, and a `Logger::log`
call whose level passes the filter appends exactly one line to the console sink and
exactly one line to that file (and to no other file), the two lines carrying the same
level tag and the same message text; a filtered-out call changes nothing at all. -/
theorem C3_file_duplicate (env : Env) (he : env.LOGGING_ENABLED = true) (filename : String)
    (w0 : World) (hok : env.openOk w0.opens filename = true) (ops : List Op)
    (hops : ∀ op ∈ ops, op.isSetLogFile = false) (w : World)
    (hw : w = runOps env (Logger.setLogFile env filename w0) ops) (L : LogLevel)
    (msg : Value) :
    w.logFile_ = some filename ∧
    (w.logLevel_.toNat ≤ L.toNat →
      (Logger.log env L msg w).streams w.outputStream_ =
          w.streams w.outputStream_ ++ (put_time (env.clock w.clockReads) ++ " " ++
            levelTag L ++ Logger.stringify msg ++ "\n") ∧
        (Logger.log env L msg w).files filename =
          w.files filename ++ (put_time (env.clock (w.clockReads + 1)) ++ " " ++
            levelTag L ++ Logger.stringify msg ++ "\n") ∧
        (∀ other, other ≠ filename → (Logger.log env L msg w).files other = w.files other)) ∧
    (L.toNat < w.logLevel_.toNat → Logger.log env L msg w = w) := by
  have hfile : w.logFile_ = some filename := by
    rw [hw, runOps_logFile env ops _ hops, setLogFile_success env he filename w0 hok]
  refine ⟨hfile, ?_, log_filtered env L msg w⟩
  intro hpass
  refine ⟨log_console env he L msg w hpass, ?_, ?_⟩
  · rw [log_open env he L msg w hpass filename hfile]; simp
  · intro other ho
    rw [log_open env he L msg w hpass filename hfile]; simp [ho]

/-- Instance of C3 on the sample surrounding: the set-up of the demonstration program
(`setLogLevel(DEBUG)`, `setOutputStream(std::cout)`, `setLogFile("log.log")`) followed by
one WARNING call. -/
theorem C3_file_duplicate_witness :
    sampleEnv.LOGGING_ENABLED = true ∧
    sampleEnv.openOk World.initial.opens "log.log" = true ∧
    (Logger.log sampleEnv .WARNING (.str "careful")
        (runOps sampleEnv (Logger.setLogFile sampleEnv "log.log" World.initial)
          [.setLogLevel .DEBUG, .setOutputStream .cout])).files "log.log" =
      "2024-01-02 03:04:06 [WARNING]: careful\n" :=
  ⟨rfl, by decide,
   ((C3_file_duplicate sampleEnv rfl "log.log" World.initial (by decide)
      [.setLogLevel .DEBUG, .setOutputStream .cout] (by decide) _ rfl .WARNING
      (.str "careful")).2.1 (by decide)).2.1.trans (by decide)⟩

/-! ### Failed `setLogFile` -/

/-- Claim C4, as stated, fails: on the sample surrounding `log.log` is open, the
re-open on `/nonexistent/x.log` fails, and afterwards the log file is closed; a passing
ERROR call then reaches `std::cout` but appends nothing to `log.log`. -/
theorem C4_counterexample :
    (Logger.setLogFile sampleEnv "log.log" World.initial).logFile_ = some "log.log" ∧
    sampleEnv.openOk (Logger.setLogFile sampleEnv "log.log" World.initial).opens
      "/nonexistent/x.log" = false ∧
    (Logger.setLogFile sampleEnv "/nonexistent/x.log"
      (Logger.setLogFile sampleEnv "log.log" World.initial)).logFile_ = none ∧
    (Logger.log sampleEnv .ERROR (.str "boom")
      (Logger.setLogFile sampleEnv "/nonexistent/x.log"
        (Logger.setLogFile sampleEnv "log.log" World.initial))).files "log.log" = "" ∧
    (Logger.log sampleEnv .ERROR (.str "boom")
      (Logger.setLogFile sampleEnv "/nonexistent/x.log"
        (Logger.setLogFile sampleEnv "log.log" World.initial))).streams .cout =
      "2024-01-02 03:04:05 [ERROR]: boom\n" := by
  decide

theorem run_files_closed (env : Env) (w : World) (op : Op) (h : op.isSetLogFile = false)
    (hclosed : w.logFile_ = none) : (op.run env w).files = w.files := by
  cases op with
  | setLogLevel level => simp only [Op.run, Logger.setLogLevel]; split <;> rfl
  | setOutputStream stream => rfl
  | setLogFile filename => simp [Op.isSetLogFile] at h
  | log level message => exact log_files_closed env level message w hclosed
  | logVia level message =>
    simp only [Op.run, LOG_eq]
    exact log_files_closed env level _ w hclosed

theorem runOps_files_closed (env : Env) (ops : List Op) :
    ∀ w : World, (∀ op ∈ ops, op.isSetLogFile = false) → w.logFile_ = none →
      (runOps env w ops).files = w.files := by
  induction ops with
  | nil => intro w _ _; rfl
  | cons op rest ih =>
    intro w h hclosed
    have hop := h op (List.mem_cons_self _ _)
    have h1 : (op.run env w).logFile_ = none := (run_logFile env w op hop).trans hclosed
    have h2 := ih (op.run env w) (fun o ho => h o (List.mem_cons_of_mem _ ho)) h1
    have h3 := run_files_closed env w op hop hclosed
    simpa [runOps] using h2.trans h3

/-- Claim C4, amended: when a log file is open and `setLogFile` is called with a path
that cannot be opened, the previously open file is closed and file logging is disabled
(the file-logging state does change); the failed call changes no file content, leaves
the console sink reference and the minimum level as they were, and the only characters
it writes are the diagnostic, appended to `std::cerr`.  After any further calls other
than `setLogFile` the file sink is still closed and no file content has changed, and
every passing `Logger::log` call then appends its line to the console sink and nothing
to any file, leaving the file sink closed. -/
theorem C4_failed_reopen_closes (env : Env) (he : env.LOGGING_ENABLED = true) (w0 : World)
    (path : String) (hopen : w0.logFile_ = some path) (bad : String)
    (hfail : env.openOk w0.opens bad = false) (ops : List Op)
    (hops : ∀ op ∈ ops, op.isSetLogFile = false) (w : World)
    (hw : w = runOps env (Logger.setLogFile env bad w0) ops) (L : LogLevel) (msg : Value)
    (hpass : w.logLevel_.toNat ≤ L.toNat) :
    (Logger.setLogFile env bad w0).logFile_ = none ∧
    (Logger.setLogFile env bad w0).logFile_ ≠ w0.logFile_ ∧
    (Logger.setLogFile env bad w0).files = w0.files ∧
    (Logger.setLogFile env bad w0).outputStream_ = w0.outputStream_ ∧
    (Logger.setLogFile env bad w0).logLevel_ = w0.logLevel_ ∧
    (Logger.setLogFile env bad w0).streams .cerr =
      w0.streams .cerr ++ ("Failed to open log file: " ++ bad ++ "\n") ∧
    (∀ o, o ≠ OStream.cerr → (Logger.setLogFile env bad w0).streams o = w0.streams o) ∧
    w.logFile_ = none ∧
    w.files = w0.files ∧
    (Logger.log env L msg w).files = w0.files ∧
    (Logger.log env L msg w).logFile_ = none ∧
    (Logger.log env L msg w).streams w.outputStream_ =
      w.streams w.outputStream_ ++
        (put_time (env.clock w.clockReads) ++ " " ++ levelTag L ++
          Logger.stringify msg ++ "\n") ∧
    (∀ o, o ≠ w.outputStream_ → (Logger.log env L msg w).streams o = w.streams o) := by
  have hs := setLogFile_failure env he bad w0 hfail
  have hclosed : (Logger.setLogFile env bad w0).logFile_ = none := by rw [hs]
  have hfiles : (Logger.setLogFile env bad w0).files = w0.files := by rw [hs]
  have hwclosed : w.logFile_ = none := by
    rw [hw, runOps_logFile env ops _ hops]; exact hclosed
  have hwfiles : w.files = w0.files := by
    rw [hw, runOps_files_closed env ops _ hops hclosed]; exact hfiles
  refine ⟨hclosed, by rw [hclosed, hopen]; simp, hfiles, by rw [hs], by rw [hs],
    by rw [hs]; simp, ?_, hwclosed, hwfiles, ?_, ?_, log_console env he L msg w hpass, ?_⟩
  · intro o ho
    rw [hs]; simp [ho]
  · rw [log_files_closed env L msg w hwclosed]; exact hwfiles
  · rw [log_logFile env L msg w]; exact hwclosed
  · intro o ho
    exact log_other_streams env L msg w o ho

/-- Instance of the amended C4 on the sample surrounding: `log.log` is open, the
re-open on `/nonexistent/x.log` fails; after a level change and a first INFO call, an
ERROR call still leaves `log.log` empty and the file sink closed, and reaches
`std::cout` as the second line. -/
theorem C4_failed_reopen_closes_witness :
    sampleEnv.LOGGING_ENABLED = true ∧
    (Logger.setLogFile sampleEnv "log.log" World.initial).logFile_ = some "log.log" ∧
    sampleEnv.openOk (Logger.setLogFile sampleEnv "log.log" World.initial).opens
      "/nonexistent/x.log" = false ∧
    (Logger.log sampleEnv .ERROR (.str "boom")
      (runOps sampleEnv (Logger.setLogFile sampleEnv "/nonexistent/x.log"
        (Logger.setLogFile sampleEnv "log.log" World.initial))
        [.setLogLevel .DEBUG, .log .INFO (.str "first")])).logFile_ = none ∧
    (Logger.log sampleEnv .ERROR (.str "boom")
      (runOps sampleEnv (Logger.setLogFile sampleEnv "/nonexistent/x.log"
        (Logger.setLogFile sampleEnv "log.log" World.initial))
        [.setLogLevel .DEBUG, .log .INFO (.str "first")])).files "log.log" = "" ∧
    (Logger.log sampleEnv .ERROR (.str "boom")
      (runOps sampleEnv (Logger.setLogFile sampleEnv "/nonexistent/x.log"
        (Logger.setLogFile sampleEnv "log.log" World.initial))
        [.setLogLevel .DEBUG, .log .INFO (.str "first")])).streams .cout =
      "2024-01-02 03:04:05 [INFO]: first\n2024-01-02 03:04:06 [ERROR]: boom\n" :=
  ⟨rfl, by decide, by decide,
   (C4_failed_reopen_closes sampleEnv rfl (Logger.setLogFile sampleEnv "log.log" World.initial)
     "log.log" (by decide) "/nonexistent/x.log" (by decide)
     [.setLogLevel .DEBUG, .log .INFO (.str "first")] (by decide) _ rfl .ERROR (.str "boom")
     (by decide)).2.2.2.2.2.2.2.2.2.2.1,
   by decide, by decide⟩

/-- Claim C5, as stated, fails: in the initial state the console sink is `std::cout`;
a failing `setLogFile` leaves `std::cout` empty and puts the diagnostic on `std::cerr`. -/
theorem C5_counterexample :
    World.initial.outputStream_ = OStream.cout ∧
    sampleEnv.openOk World.initial.opens "/nonexistent/x.log" = false ∧
    (Logger.setLogFile sampleEnv "/nonexistent/x.log" World.initial).streams .cout = "" ∧
    (Logger.setLogFile sampleEnv "/nonexistent/x.log" World.initial).streams .cerr =
      "Failed to open log file: /nonexistent/x.log\n" := by
  decide

/-- Claim C5, amended: when `setLogFile` fails to open the path, the diagnostic
`Failed to open log file: ` followed by the file name and a line terminator is appended
to `std::cerr` and to no other stream, whatever the configured console sink is; the
console sink receives it exactly when it is `std::cerr` itself. -/
theorem C5_diagnostic_on_cerr (env : Env) (he : env.LOGGING_ENABLED = true) (w : World)
    (filename : String) (hfail : env.openOk w.opens filename = false) :
    (Logger.setLogFile env filename w).streams .cerr =
      w.streams .cerr ++ ("Failed to open log file: " ++ filename ++ "\n") ∧
    (∀ o, o ≠ OStream.cerr → (Logger.setLogFile env filename w).streams o = w.streams o) ∧
    (w.outputStream_ ≠ OStream.cerr →
      (Logger.setLogFile env filename w).streams w.outputStream_ =
        w.streams w.outputStream_) := by
  have hs := setLogFile_failure env he filename w hfail
  refine ⟨by rw [hs]; simp, ?_, ?_⟩
  · intro o ho
    rw [hs]; simp [ho]
  · intro ho
    rw [hs]; simp [ho]

/-- Instance of the amended C5 with the console sink redirected to a caller stream. -/
theorem C5_diagnostic_on_cerr_witness :
    sampleEnv.LOGGING_ENABLED = true ∧
    sampleEnv.openOk (Logger.setOutputStream sampleEnv (.user 7) World.initial).opens
      "/nonexistent/x.log" = false ∧
    (Logger.setLogFile sampleEnv "/nonexistent/x.log"
      (Logger.setOutputStream sampleEnv (.user 7) World.initial)).streams .cerr =
      "Failed to open log file: /nonexistent/x.log\n" :=
  ⟨rfl, by decide,
   (C5_diagnostic_on_cerr sampleEnv rfl (Logger.setOutputStream sampleEnv (.user 7)
     World.initial) "/nonexistent/x.log" (by decide)).1.trans (by decide)⟩

theorem run_closed (env : Env) (w : World) (op : Op) (hclosed : w.logFile_ = none)
    (hfail : ∀ i p, w.opens ≤ i → env.openOk i p = false) :
    (op.run env w).logFile_ = none ∧ (op.run env w).files = w.files ∧
      w.opens ≤ (op.run env w).opens := by
  cases op with
  | setLogLevel level =>
    simp only [Op.run, Logger.setLogLevel]
    split <;> simp [hclosed]
  | setOutputStream stream => exact ⟨hclosed, rfl, le_refl _⟩
  | setLogFile filename =>
    cases he : env.LOGGING_ENABLED with
    | false =>
      have : Logger.setLogFile env filename w = w := by simp [Logger.setLogFile, he]
      simp [Op.run, this, hclosed]
    | true =>
      simp [Op.run, setLogFile_failure env he filename w (hfail _ _ (le_refl _))]
  | log level message =>
    simp only [Op.run]
    exact ⟨(log_logFile env level message w).trans hclosed,
      log_files_closed env level message w hclosed, (log_opens env level message w).ge⟩
  | logVia level message =>
    simp only [Op.run, LOG_eq]
    exact ⟨(log_logFile env level _ w).trans hclosed,
      log_files_closed env level _ w hclosed, (log_opens env level _ w).ge⟩

theorem runOps_closed (env : Env) (ops : List Op) :
    ∀ w : World, w.logFile_ = none → (∀ i p, w.opens ≤ i → env.openOk i p = false) →
      (runOps env w ops).logFile_ = none ∧ (runOps env w ops).files = w.files := by
  induction ops with
  | nil => intro w h _; exact ⟨h, rfl⟩
  | cons op rest ih =>
    intro w hclosed hfail
    obtain ⟨h1, h2, h3⟩ := run_closed env w op hclosed hfail
    obtain ⟨h4, h5⟩ := ih (op.run env w) h1 (fun i p hi => hfail i p (le_trans h3 hi))
    exact ⟨by simpa [runOps] using h4, by simpa [runOps] using h5.trans h2⟩

/-- Claim C6: from any prior state, a `setLogFile` call whose open fails returns with
the file sink closed and no file content changed; and for as long as no later open
succeeds, whatever calls follow, the file sink stays closed, no file content changes,
and every passing `Logger::log` call appends exactly one line to the console sink and
nothing to any file. -/
theorem C6_failed_open_disables_file (env : Env) (he : env.LOGGING_ENABLED = true)
    (w0 : World) (filename : String) (hfail : env.openOk w0.opens filename = false)
    (hlater : ∀ i p, w0.opens < i → env.openOk i p = false) (ops : List Op) (w : World)
    (hw : w = runOps env (Logger.setLogFile env filename w0) ops) (L : LogLevel)
    (msg : Value) (hpass : w.logLevel_.toNat ≤ L.toNat) :
    (Logger.setLogFile env filename w0).logFile_ = none ∧
    (Logger.setLogFile env filename w0).files = w0.files ∧
    w.logFile_ = none ∧ w.files = w0.files ∧
    (Logger.log env L msg w).streams w.outputStream_ =
      w.streams w.outputStream_ ++ (put_time (env.clock w.clockReads) ++ " " ++
        levelTag L ++ Logger.stringify msg ++ "\n") ∧
    (Logger.log env L msg w).files = w0.files ∧
    (Logger.log env L msg w).logFile_ = none := by
  have hs := setLogFile_failure env he filename w0 hfail
  have hclosed : (Logger.setLogFile env filename w0).logFile_ = none := by rw [hs]
  have hfiles : (Logger.setLogFile env filename w0).files = w0.files := by rw [hs]
  have hopens : (Logger.setLogFile env filename w0).opens = w0.opens + 1 := by rw [hs]
  obtain ⟨h1, h2⟩ := runOps_closed env ops (Logger.setLogFile env filename w0) hclosed
    (fun i p hi => hlater i p (by omega))
  rw [← hw] at h1 h2
  exact ⟨hclosed, hfiles, h1, h2.trans hfiles, log_console env he L msg w hpass,
    (log_files_closed env L msg w h1).trans (h2.trans hfiles),
    (log_logFile env L msg w).trans h1⟩

/-- Instance of C6: after a failed `setLogFile("log.log")`, a second failed attempt and a
level change, an ERROR call reaches `std::cout` and no file. -/
theorem C6_failed_open_disables_file_witness :
    noFileEnv.LOGGING_ENABLED = true ∧
    noFileEnv.openOk World.initial.opens "log.log" = false ∧
    (Logger.log noFileEnv .ERROR (.str "boom")
      (runOps noFileEnv (Logger.setLogFile noFileEnv "log.log" World.initial)
        [.setLogFile "other.log", .setLogLevel .DEBUG])).logFile_ = none ∧
    (Logger.log noFileEnv .ERROR (.str "boom")
      (runOps noFileEnv (Logger.setLogFile noFileEnv "log.log" World.initial)
        [.setLogFile "other.log", .setLogLevel .DEBUG])).streams .cout =
      "2024-01-02 03:04:05 [ERROR]: boom\n" :=
  ⟨rfl, rfl,
   (C6_failed_open_disables_file noFileEnv rfl World.initial "log.log" rfl
     (fun _ _ _ => rfl) [.setLogFile "other.log", .setLogLevel .DEBUG] _ rfl .ERROR
     (.str "boom") (by decide)).2.2.2.2.2.2,
   by decide⟩

/-! ### The two output statements of one call -/

/-- Claim C7, as stated, fails: with `log.log` open and a clock that advances by one
second between the two readings of one ERROR call, the console line is stamped
03:04:05 and the file line 03:04:06. -/
theorem C7_counterexample :
    (Logger.setLogFile sampleEnv "log.log" World.initial).logFile_ = some "log.log" ∧
    (Logger.log sampleEnv .ERROR (.str "boom")
      (Logger.setLogFile sampleEnv "log.log" World.initial)).streams .cout =
      "2024-01-02 03:04:05 [ERROR]: boom\n" ∧
    (Logger.log sampleEnv .ERROR (.str "boom")
      (Logger.setLogFile sampleEnv "log.log" World.initial)).files "log.log" =
      "2024-01-02 03:04:06 [ERROR]: boom\n" := by
  decide

theorem string_append_right_cancel (a b c : String) : a ++ c = b ++ c ↔ a = b := by
  constructor
  · intro h
    have h2 := congrArg String.data h
    simp only [String.data_append] at h2
    exact String.ext (List.append_cancel_right h2)
  · intro h; rw [h]

/-- Claim C7, amended: for a passing call made while a log file is open, the console
line is written first and stamped with the first clock reading of the call, the file
line is written second and stamped with the next clock reading (the prefix is computed
once per sink, two readings per call); both lines carry the same level tag, text and
line terminator, so they are identical exactly when the two readings render the same
timestamp. -/
theorem C7_two_prefixes (env : Env) (he : env.LOGGING_ENABLED = true) (L : LogLevel)
    (msg : Value) (w : World) (path : String) (hopen : w.logFile_ = some path)
    (hpass : w.logLevel_.toNat ≤ L.toNat) :
    (Logger.log env L msg w).streams w.outputStream_ =
      w.streams w.outputStream_ ++ (put_time (env.clock w.clockReads) ++ " " ++
        levelTag L ++ Logger.stringify msg ++ "\n") ∧
    (Logger.log env L msg w).files path =
      w.files path ++ (put_time (env.clock (w.clockReads + 1)) ++ " " ++
        levelTag L ++ Logger.stringify msg ++ "\n") ∧
    (Logger.log env L msg w).clockReads = w.clockReads + 2 ∧
    ((put_time (env.clock w.clockReads) ++ " " ++ levelTag L ++ Logger.stringify msg ++ "\n" =
        put_time (env.clock (w.clockReads + 1)) ++ " " ++ levelTag L ++
          Logger.stringify msg ++ "\n") ↔
      put_time (env.clock w.clockReads) = put_time (env.clock (w.clockReads + 1))) := by
  refine ⟨log_console env he L msg w hpass, ?_, ?_, ?_⟩
  · rw [log_open env he L msg w hpass path hopen]; simp
  · rw [log_open env he L msg w hpass path hopen]
  · simp only [string_append_right_cancel]

/-- Instance of the amended C7 on the sample surrounding. -/
theorem C7_two_prefixes_witness :
    sampleEnv.LOGGING_ENABLED = true ∧
    (Logger.setLogFile sampleEnv "log.log" World.initial).logFile_ = some "log.log" ∧
    (Logger.log sampleEnv .ERROR (.str "boom")
      (Logger.setLogFile sampleEnv "log.log" World.initial)).clockReads = 2 :=
  ⟨rfl, by decide,
   (C7_two_prefixes sampleEnv rfl .ERROR (.str "boom")
     (Logger.setLogFile sampleEnv "log.log" World.initial) "log.log" (by decide)
     (by decide)).2.2.1⟩

/-! ### Logging compiled out -/

theorem run_disabled (env : Env) (he : env.LOGGING_ENABLED = false) (w : World) (op : Op) :
    op.run env w = { w with outputStream_ := lastSink w.outputStream_ [op] } := by
  cases op <;>
    simp [Op.run, Logger.setLogLevel, Logger.setOutputStream, Logger.setLogFile, Logger.log,
      LOG, lastSink, he]

theorem lastSink_cons (start : OStream) (op : Op) (ops : List Op) :
    lastSink start (op :: ops) = lastSink (lastSink start [op]) ops := by
  simp [lastSink]

theorem runOps_disabled (env : Env) (he : env.LOGGING_ENABLED = false) (ops : List Op) :
    ∀ w : World, runOps env w ops = { w with outputStream_ := lastSink w.outputStream_ ops } := by
  induction ops with
  | nil => intro w; rfl
  | cons op rest ih =>
    intro w
    have h : runOps env w (op :: rest) = runOps env (op.run env w) rest := rfl
    rw [h, ih, run_disabled env he, lastSink_cons w.outputStream_ op rest]

/-- Claim C8: with `LOGGING_ENABLED` not defined, any sequence of `Logger::log`,
`LOG_*`, `setLogLevel`, `setLogFile` and `setOutputStream` calls leaves every stream and
every file as it was, opens no file, and changes nothing of the writer state except the
console sink reference, which ends as the stream of the last `setOutputStream`;
`setLogLevel`, `setLogFile`, `Logger::log` and the five wrappers are each the identity. -/
theorem C8_disabled_build (env : Env) (he : env.LOGGING_ENABLED = false) (w : World)
    (ops : List Op) :
    runOps env w ops = { w with outputStream_ := lastSink w.outputStream_ ops } ∧
    (runOps env w ops).streams = w.streams ∧
    (runOps env w ops).files = w.files ∧
    (runOps env w ops).logFile_ = w.logFile_ ∧
    (runOps env w ops).opens = w.opens ∧
    (runOps env w ops).logLevel_ = w.logLevel_ ∧
    (∀ level, Logger.setLogLevel env level w = w) ∧
    (∀ filename, Logger.setLogFile env filename w = w) ∧
    (∀ level message, Logger.log env level message w = w) ∧
    (∀ message, LOG_DEBUG env message w = w ∧ LOG_INFO env message w = w ∧
      LOG_WARNING env message w = w ∧ LOG_ERROR env message w = w ∧
      LOG_CRITICAL env message w = w) ∧
    (∀ stream, Logger.setOutputStream env stream w = { w with outputStream_ := stream }) := by
  have h := runOps_disabled env he ops w
  refine ⟨h, by rw [h], by rw [h], by rw [h], by rw [h], by rw [h], ?_, ?_, ?_, ?_, ?_⟩
  · intro level; simp [Logger.setLogLevel, he]
  · intro filename; simp [Logger.setLogFile, he]
  · intro level message; exact log_disabled env he level message w
  · intro message
    simp [LOG_DEBUG, LOG_INFO, LOG_WARNING, LOG_ERROR, LOG_CRITICAL, LOG, he]
  · intro stream; rfl

/-- Instance of C8: the demonstration program built without the flag writes nothing. -/
theorem C8_disabled_build_witness :
    disabledEnv.LOGGING_ENABLED = false ∧
    (runOps disabledEnv World.initial
      [.logVia .INFO [.val (.str "Starting program...")], .setLogFile "log.log",
       .setOutputStream .cerr, .log .CRITICAL (.int 42)]).streams = World.initial.streams ∧
    (runOps disabledEnv World.initial
      [.logVia .INFO [.val (.str "Starting program...")], .setLogFile "log.log",
       .setOutputStream .cerr, .log .CRITICAL (.int 42)]).outputStream_ = OStream.cerr :=
  ⟨rfl, (C8_disabled_build disabledEnv rfl World.initial _).2.1, by decide⟩

/-! ### The call-site adapter -/

@[simp] theorem setThread_threads (s : Sys) (t : Nat) (th : Thread) (i : Nat) :
    (s.setThread t th).threads i = if i = t then th else s.threads i := rfl

@[simp] theorem setThread_world (s : Sys) (t : Nat) (th : Thread) :
    (s.setThread t th).world = s.world := rfl

@[simp] theorem setThread_mutex (s : Sys) (t : Nat) (th : Thread) :
    (s.setThread t th).mutex = s.mutex := rfl

@[simp] theorem goto_threads (s : Sys) (t : Nat) (pc : Pc) (i : Nat) :
    (s.goto t pc).threads i =
      if i = t then { s.threads t with pc := pc } else s.threads i := rfl

@[simp] theorem goto_world (s : Sys) (t : Nat) (pc : Pc) : (s.goto t pc).world = s.world := rfl

@[simp] theorem goto_mutex (s : Sys) (t : Nat) (pc : Pc) : (s.goto t pc).mutex = s.mutex := rfl

theorem string_append_empty (s : String) : s ++ "" = s := by
  apply String.ext; simp [String.data_append]

theorem string_append_assoc (a b c : String) : a ++ b ++ c = a ++ (b ++ c) := by
  apply String.ext; simp [String.data_append]

theorem consoleLines_snoc (env : Env) (recs : List Rec) (r : Rec) :
    consoleLines env (recs ++ [r]) =
      consoleLines env recs ++ lineAt env r.level r.message r.reading := by
  simp [consoleLines, List.foldl_append]

theorem fileLines_snoc (env : Env) (recs : List Rec) (r : Rec) :
    fileLines env (recs ++ [r]) =
      fileLines env recs ++ lineAt env r.level r.message (r.reading + 1) := by
  simp [fileLines, List.foldl_append]

theorem callsBy_snoc_self (recs : List Rec) (r : Rec) :
    callsBy (recs ++ [r]) r.tid = callsBy recs r.tid ++ [(r.level, r.message)] := by
  simp [callsBy, List.filter_append]

theorem callsBy_snoc_other (recs : List Rec) (r : Rec) (t : Nat) (h : r.tid ≠ t) :
    callsBy (recs ++ [r]) t = callsBy recs t := by
  simp [callsBy, List.filter_append, h]

/-- A thread that does not hold the mutex can be replaced without changing the
position of the holder. -/
theorem holderPc_setThread (s : Sys) (t : Nat) (th : Thread)
    (hmx : ∀ i, (s.threads i).pc.holds = true ↔ s.mutex = some i)
    (hnot : (s.threads t).pc.holds = false) :
    (s.setThread t th).holderPc = s.holderPc := by
  unfold Sys.holderPc
  cases hm : s.mutex with
  | none => simp [hm]
  | some h =>
    have hne : h ≠ t := by
      intro e
      subst e
      have := (hmx h).2 hm
      rw [hnot] at this
      cases this
    simp [hm, hne]

theorem holderPc_of_holder (s : Sys) (t : Nat) (hm : s.mutex = some t) :
    s.holderPc = (s.threads t).pc := by
  simp [Sys.holderPc, hm]

/-- A thread outside the guarded block moves to another position outside it. -/
theorem inv_setThread_nonholder (env : Env) (w0 : World) (prog : Nat → List Op) (s : Sys)
    (t : Nat) (th : Thread) (h : Inv env w0 prog s)
    (hold : (s.threads t).pc.holds = false) (hnew : th.pc.holds = false)
    (hok : ∀ recs, ThreadOK w0 prog recs t (s.threads t) → ThreadOK w0 prog recs t th) :
    Inv env w0 prog (s.setThread t th) := by
  obtain ⟨hlev, hout, hfile, hmx, recs, hth, hO⟩ := h
  refine ⟨hlev, hout, hfile, ?_, recs, ?_, ?_⟩
  · intro i
    by_cases hi : i = t
    · subst hi
      simp only [setThread_threads, if_true, setThread_mutex, hnew]
      rw [← hmx i, hold]
    · simp only [setThread_threads, if_neg hi, setThread_mutex]
      exact hmx i
  · intro i
    by_cases hi : i = t
    · subst hi
      simp only [setThread_threads, if_true]
      exact hok recs (hth i)
    · simp only [setThread_threads, if_neg hi]
      exact hth i
  · unfold Out
    rw [holderPc_setThread s t th hmx hold]
    exact hO

/-- The holder of the mutex moves to another position inside the guarded block. -/
theorem inv_holder_move (env : Env) (w0 : World) (prog : Nat → List Op) (s : Sys)
    (t : Nat) (w1 : World) (pc1 : Pc) (h : Inv env w0 prog s)
    (hm : s.mutex = some t) (hholds : pc1.holds = true)
    (hlev : w1.logLevel_ = s.world.logLevel_)
    (hout : w1.outputStream_ = s.world.outputStream_)
    (hfile : w1.logFile_ = s.world.logFile_)
    (hin : (s.threads t).pc.inLog w0.outputStream_ w0.is_open →
      pc1.inLog w0.outputStream_ w0.is_open)
    (hfl : pc1.inflight = (s.threads t).pc.inflight)
    (hO : ∀ recs, OutAt env w0 recs s.world (s.threads t).pc → OutAt env w0 recs w1 pc1) :
    Inv env w0 prog ({ s with world := w1 }.goto t pc1) := by
  obtain ⟨hlev0, hout0, hfile0, hmx, recs, hth, hOut⟩ := h
  refine ⟨hlev.trans hlev0, hout.trans hout0, hfile.trans hfile0, ?_, recs, ?_, ?_⟩
  · intro i
    by_cases hi : i = t
    · subst hi
      simp [hholds, hm]
    · simp only [goto_threads, if_neg hi, goto_mutex]
      exact hmx i
  · intro i
    by_cases hi : i = t
    · subst hi
      obtain ⟨h1, h2, h3⟩ := hth i
      simp only [goto_threads, if_true]
      exact ⟨h1, hin h2, by rw [hfl]; exact h3⟩
    · simp only [goto_threads, if_neg hi]
      exact hth i
  · unfold Out at hOut ⊢
    rw [holderPc_of_holder s t hm] at hOut
    have : ({ s with world := w1 }.goto t pc1).holderPc = pc1 := by
      simp [Sys.holderPc, hm]
    rw [this]
    exact hO recs hOut

/-- A waiting thread takes the free mutex. -/
theorem inv_acquire (env : Env) (w0 : World) (prog : Nat → List Op) (s : Sys) (t : Nat)
    (level : LogLevel) (message : Value) (h : Inv env w0 prog s)
    (hpc : (s.threads t).pc = .acquire level message) (hm : s.mutex = none) :
    Inv env w0 prog ({ s with mutex := some t }.goto t (.conPrefix level message)) := by
  obtain ⟨hlev, hout, hfile, hmx, recs, hth, hO⟩ := h
  refine ⟨hlev, hout, hfile, ?_, recs, ?_, ?_⟩
  · intro i
    by_cases hi : i = t
    · subst hi
      simp [Pc.holds]
    · have hno : (s.threads i).pc.holds = false := by
        cases hh : (s.threads i).pc.holds with
        | false => rfl
        | true => have := (hmx i).1 hh; rw [hm] at this; cases this
      simp only [goto_threads, if_neg hi, goto_mutex, hno]
      constructor
      · intro hf; cases hf
      · intro hs; exact absurd (Option.some.inj hs).symm hi
  · intro i
    by_cases hi : i = t
    · subst hi
      obtain ⟨h1, h2, h3⟩ := hth i
      simp only [goto_threads, if_true]
      rw [hpc] at h3
      exact ⟨h1, trivial, h3⟩
    · simp only [goto_threads, if_neg hi]
      exact hth i
  · unfold Out at hO ⊢
    have e1 : s.holderPc = .idle := by simp [Sys.holderPc, hm]
    have e2 : ({ s with mutex := some t }.goto t (.conPrefix level message)).holderPc =
        .conPrefix level message := by
      simp [Sys.holderPc]
    rw [e1] at hO
    rw [e2]
    exact hO

/-- The holder leaves the guarded block: its call joins the finished ones. -/
theorem inv_release (env : Env) (w0 : World) (prog : Nat → List Op) (s : Sys) (t : Nat)
    (level : LogLevel) (message : Value) (h : Inv env w0 prog s)
    (hpc : (s.threads t).pc = .release level message) :
    Inv env w0 prog ({ s with mutex := none }.goto t .idle) := by
  obtain ⟨hlev, hout, hfile, hmx, recs, hth, hO⟩ := h
  have hm : s.mutex = some t := (hmx t).1 (by rw [hpc]; rfl)
  unfold Out at hO
  rw [holderPc_of_holder s t hm, hpc] at hO
  obtain ⟨r, hR, hC, hF⟩ := hO
  refine ⟨hlev, hout, hfile, ?_, recs ++ [⟨t, level, message, r⟩], ?_, ?_⟩
  · intro i
    by_cases hi : i = t
    · subst hi
      simp [Pc.holds]
    · have hno : (s.threads i).pc.holds = false := by
        cases hh : (s.threads i).pc.holds with
        | false => rfl
        | true =>
          have := (hmx i).1 hh
          rw [hm] at this
          exact absurd (Option.some.inj this).symm hi
      simp [hi, hno]
  · intro i
    by_cases hi : i = t
    · subst hi
      obtain ⟨h1, h2, h3⟩ := hth i
      simp only [goto_threads, if_true]
      refine ⟨h1, trivial, ?_⟩
      rw [hpc] at h3
      have e := callsBy_snoc_self recs ⟨i, level, message, r⟩
      simp only at e
      rw [e]
      simpa [Pc.inflight] using h3
    · simp only [goto_threads, if_neg hi]
      obtain ⟨h1, h2, h3⟩ := hth i
      refine ⟨h1, h2, ?_⟩
      rw [callsBy_snoc_other recs ⟨t, level, message, r⟩ i (fun e => hi e.symm)]
      exact h3
  · unfold Out
    have e2 : ({ s with mutex := none }.goto t .idle).holderPc = .idle := by
      simp [Sys.holderPc]
    rw [e2]
    refine ⟨s.world.clockReads, rfl, ?_, ?_⟩
    · simp only [goto_world, partials, consoleLines_snoc, string_append_empty]
      rw [hC]
      cases hfo : w0.is_open <;> simp [partials, hfo, string_append_assoc]
    · intro p hp
      have hfo : w0.is_open = true := by simp [World.is_open, hp]
      simp only [goto_world, partials, fileLines_snoc, string_append_empty]
      rw [hF p hp]
      simp [partials, hfo, string_append_assoc]

theorem emitted_cons (minLevel : LogLevel) (op : Op) (rest : List Op) :
    emitted minLevel (op :: rest) =
      (match op.emits minLevel with
        | some c => [c]
        | none => []) ++ emitted minLevel rest := by
  unfold emitted
  cases h : op.emits minLevel <;> simp [List.filterMap_cons, h]

/-- A thread between calls enters its next `Logger::log`. -/
theorem inv_enter (env : Env) (he : env.LOGGING_ENABLED = true) (w0 : World)
    (prog : Nat → List Op) (s : Sys) (t : Nat) (op : Op) (rest : List Op)
    (h : Inv env w0 prog s) (hpc : (s.threads t).pc = .idle)
    (htodo : (s.threads t).todo = op :: rest) :
    Inv env w0 prog (enter env t s op rest) := by
  have hlev := h.1
  have hold : (s.threads t).pc.holds = false := by rw [hpc]; rfl
  have hlog : op.isLog = true := by
    obtain ⟨_, _, _, _, recs, hth, _⟩ := h
    exact (hth t).1 op (by rw [htodo]; exact List.mem_cons_self _ _)
  have key : ∀ (pc1 : Pc), pc1.holds = false → pc1.inLog w0.outputStream_ w0.is_open →
      (match op.emits w0.logLevel_ with
        | some c => [c]
        | none => []) = pc1.inflight →
      Inv env w0 prog (s.setThread t ⟨pc1, rest⟩) := by
    intro pc1 h1 h2 h3
    apply inv_setThread_nonholder env w0 prog s t _ h hold h1
    intro recs hok
    obtain ⟨a, _, c⟩ := hok
    refine ⟨fun o ho => a o (by rw [htodo]; exact List.mem_cons_of_mem _ ho), h2, ?_⟩
    rw [htodo, hpc, emitted_cons, h3] at c
    simpa [Pc.inflight] using c
  cases op with
  | setLogLevel level => simp [Op.isLog] at hlog
  | setOutputStream stream => simp [Op.isLog] at hlog
  | setLogFile filename => simp [Op.isLog] at hlog
  | log level message =>
    by_cases hp : level.toNat ≥ s.world.logLevel_.toNat
    · have hp0 : level.toNat ≥ w0.logLevel_.toNat := by rw [← hlev]; exact hp
      simp only [enter, he, hp, and_self, if_true]
      exact key _ rfl trivial (by simp [Op.emits, hp0, Pc.inflight])
    · have hp0 : ¬ level.toNat ≥ w0.logLevel_.toNat := by rw [← hlev]; exact hp
      simp only [enter, he, hp, and_false, if_false]
      exact key _ rfl trivial (by simp only [Op.emits, hp0, if_false, Pc.inflight])
  | logVia level message =>
    by_cases hp : level.toNat ≥ s.world.logLevel_.toNat
    · have hp0 : level.toNat ≥ w0.logLevel_.toNat := by rw [← hlev]; exact hp
      simp only [enter, he, hp, and_self, if_true]
      exact key _ rfl trivial (by simp [Op.emits, hp0, Pc.inflight])
    · have hp0 : ¬ level.toNat ≥ w0.logLevel_.toNat := by rw [← hlev]; exact hp
      simp only [enter, he, hp, and_false, if_false]
      exact key _ rfl trivial (by simp only [Op.emits, hp0, if_false, Pc.inflight])

/-- Every action of every thread preserves the invariant. -/
theorem step_inv (env : Env) (he : env.LOGGING_ENABLED = true) (w0 : World)
    (prog : Nat → List Op) (s : Sys) (t : Nat) (h : Inv env w0 prog s) :
    Inv env w0 prog (step env s t) := by
  have hin : (s.threads t).pc.inLog w0.outputStream_ w0.is_open := by
    obtain ⟨_, _, _, _, recs, hth, _⟩ := h
    exact (hth t).2.1
  have hlev := h.1
  have hout := h.2.1
  have hfile := h.2.2.1
  have hmx := h.2.2.2.1
  have hopen : s.world.is_open = w0.is_open := by simp [World.is_open, hfile]
  cases hpc : (s.threads t).pc with
  | idle =>
    cases htodo : (s.threads t).todo with
    | nil => simpa [step, hpc, htodo] using h
    | cons op rest =>
      simp only [step, hpc, htodo]
      exact inv_enter env he w0 prog s t op rest h hpc htodo
  | acquire level message =>
    cases hm : s.mutex with
    | none =>
      simp only [step, hpc, hm]
      exact inv_acquire env w0 prog s t level message h hpc hm
    | some i => simpa [step, hpc, hm] using h
  | conPrefix level message =>
    have hm : s.mutex = some t := (hmx t).1 (by rw [hpc]; rfl)
    simp only [step, hpc, Logger.logPrefix]
    refine inv_holder_move env w0 prog s t _ _ h hm rfl rfl rfl rfl ?_ ?_ ?_
    · intro _; exact hout
    · rw [hpc]; rfl
    · intro recs hO
      rw [hpc] at hO
      obtain ⟨r, hR, hC, hF⟩ := hO
      simp only [partials] at hR hC hF
      refine ⟨r, ?_, ?_, ?_⟩
      · simp [partials, World.writeStream, hR]
      · simp [partials, World.writeStream, hout, hC, hR, prefixAt, string_append_assoc,
          string_append_empty]
      · intro p hp
        simp [partials, World.writeStream, hF p hp]
  | conText level message o =>
    have hm : s.mutex = some t := (hmx t).1 (by rw [hpc]; rfl)
    have ho : o = w0.outputStream_ := by rw [hpc] at hin; exact hin
    subst ho
    simp only [step, hpc]
    refine inv_holder_move env w0 prog s t _ _ h hm rfl rfl rfl rfl ?_ ?_ ?_
    · intro _; rfl
    · rw [hpc]; rfl
    · intro recs hO
      rw [hpc] at hO
      obtain ⟨r, hR, hC, hF⟩ := hO
      simp only [partials] at hR hC hF
      refine ⟨r, ?_, ?_, ?_⟩
      · simp [partials, World.writeStream, hR]
      · simp [partials, World.writeStream, hC, string_append_assoc]
      · intro p hp
        simp [partials, World.writeStream, hF p hp]
  | conEndl level message o =>
    have hm : s.mutex = some t := (hmx t).1 (by rw [hpc]; rfl)
    have ho : o = w0.outputStream_ := by rw [hpc] at hin; exact hin
    subst ho
    simp only [step, hpc]
    refine inv_holder_move env w0 prog s t _ _ h hm rfl rfl rfl rfl ?_ ?_ ?_
    · intro _; trivial
    · rw [hpc]; rfl
    · intro recs hO
      rw [hpc] at hO
      obtain ⟨r, hR, hC, hF⟩ := hO
      simp only [partials] at hR hC hF
      refine ⟨r, ?_, ?_, ?_⟩
      · simp [partials, World.writeStream, hR]
      · simp [partials, World.writeStream, hC, string_append_assoc, lineAt, prefixAt]
      · intro p hp
        simp [partials, World.writeStream, hF p hp]
  | fileTest level message =>
    have hm : s.mutex = some t := (hmx t).1 (by rw [hpc]; rfl)
    have hs : s = { s with world := s.world } := rfl
    simp only [step, hpc]
    cases hfo : w0.is_open with
    | true =>
      rw [hopen, hfo, if_pos rfl, hs]
      refine inv_holder_move env w0 prog s t _ _ h hm rfl rfl rfl rfl ?_ ?_ ?_
      · intro _; exact hfo
      · rw [hpc]; rfl
      · intro recs hO
        rw [hpc] at hO
        exact hO
    | false =>
      rw [hopen, hfo, if_neg (by simp), hs]
      refine inv_holder_move env w0 prog s t _ _ h hm rfl rfl rfl rfl ?_ ?_ ?_
      · intro _; trivial
      · rw [hpc]; rfl
      · intro recs hO
        rw [hpc] at hO
        simpa [OutAt, partials, hfo] using hO
  | filePrefix level message =>
    have hm : s.mutex = some t := (hmx t).1 (by rw [hpc]; rfl)
    have hfo : w0.is_open = true := by rw [hpc] at hin; exact hin
    simp only [step, hpc, Logger.logPrefix]
    refine inv_holder_move env w0 prog s t _ _ h hm rfl ?_ ?_ ?_ ?_ ?_ ?_
    · simp [World.writeLogFile]; split <;> rfl
    · simp [World.writeLogFile]; split <;> rfl
    · simp [World.writeLogFile]; split <;> rfl
    · intro _; exact hfo
    · rw [hpc]; rfl
    · intro recs hO
      rw [hpc] at hO
      obtain ⟨r, hR, hC, hF⟩ := hO
      simp only [partials] at hR hC hF
      refine ⟨r, ?_, ?_, ?_⟩
      · simp [partials, World.writeLogFile, hR]; split <;> simp [World.writeFile, hR]
      · simp [partials, World.writeLogFile]; split <;> simp [World.writeFile, hC]
      · intro p hp
        have hp2 : s.world.logFile_ = some p := hfile.trans hp
        simp [partials, World.writeLogFile, hp2, World.writeFile, hF p hp, hR, prefixAt,
          string_append_assoc, string_append_empty]
  | fileText level message =>
    have hm : s.mutex = some t := (hmx t).1 (by rw [hpc]; rfl)
    have hfo : w0.is_open = true := by rw [hpc] at hin; exact hin
    simp only [step, hpc]
    refine inv_holder_move env w0 prog s t _ _ h hm rfl ?_ ?_ ?_ ?_ ?_ ?_
    · simp [World.writeLogFile]; split <;> rfl
    · simp [World.writeLogFile]; split <;> rfl
    · simp [World.writeLogFile]; split <;> rfl
    · intro _; exact hfo
    · rw [hpc]; rfl
    · intro recs hO
      rw [hpc] at hO
      obtain ⟨r, hR, hC, hF⟩ := hO
      simp only [partials] at hR hC hF
      refine ⟨r, ?_, ?_, ?_⟩
      · simp [partials, World.writeLogFile, hR]; split <;> simp [World.writeFile, hR]
      · simp [partials, World.writeLogFile]; split <;> simp [World.writeFile, hC]
      · intro p hp
        have hp2 : s.world.logFile_ = some p := hfile.trans hp
        simp [partials, World.writeLogFile, hp2, World.writeFile, hF p hp,
          string_append_assoc]
  | fileEndl level message =>
    have hm : s.mutex = some t := (hmx t).1 (by rw [hpc]; rfl)
    have hfo : w0.is_open = true := by rw [hpc] at hin; exact hin
    simp only [step, hpc]
    refine inv_holder_move env w0 prog s t _ _ h hm rfl ?_ ?_ ?_ ?_ ?_ ?_
    · simp [World.writeLogFile]; split <;> rfl
    · simp [World.writeLogFile]; split <;> rfl
    · simp [World.writeLogFile]; split <;> rfl
    · intro _; trivial
    · rw [hpc]; rfl
    · intro recs hO
      rw [hpc] at hO
      obtain ⟨r, hR, hC, hF⟩ := hO
      simp only [partials] at hR hC hF
      refine ⟨r, ?_, ?_, ?_⟩
      · simp [partials, hfo, World.writeLogFile, hR]; split <;> simp [World.writeFile, hR]
      · simp [partials, hfo, World.writeLogFile]; split <;> simp [World.writeFile, hC]
      · intro p hp
        have hp2 : s.world.logFile_ = some p := hfile.trans hp
        simp [partials, hfo, World.writeLogFile, hp2, World.writeFile, hF p hp,
          string_append_assoc, lineAt, prefixAt]
  | release level message =>
    simp only [step, hpc]
    exact inv_release env w0 prog s t level message h hpc
  | sClose filename => rw [hpc] at hin; exact absurd hin (by simp [Pc.inLog])
  | sOpen filename => rw [hpc] at hin; exact absurd hin (by simp [Pc.inLog])
  | sCheck filename => rw [hpc] at hin; exact absurd hin (by simp [Pc.inLog])
  | sDiag filename => rw [hpc] at hin; exact absurd hin (by simp [Pc.inLog])

theorem inv_start (env : Env) (w0 : World) (prog : Nat → List Op)
    (hprog : ∀ t, ∀ op ∈ prog t, op.isLog = true) : Inv env w0 prog (Sys.start w0 prog) := by
  refine ⟨rfl, rfl, rfl, ?_, [], ?_, ?_⟩
  · intro t
    simp [Sys.start, Pc.holds]
  · intro t
    exact ⟨hprog t, trivial, by simp [Sys.start, callsBy, Pc.inflight]⟩
  · refine ⟨w0.clockReads, rfl, ?_, ?_⟩
    · simp [Sys.start, Sys.holderPc, partials, consoleLines, string_append_empty]
    · intro p _
      simp [Sys.start, Sys.holderPc, partials, fileLines, string_append_empty]

theorem runSchedule_inv (env : Env) (he : env.LOGGING_ENABLED = true) (w0 : World)
    (prog : Nat → List Op) (schedule : List Nat) :
    ∀ s, Inv env w0 prog s → Inv env w0 prog (runSchedule env s schedule) := by
  induction schedule with
  | nil => intro s h; exact h
  | cons t rest ih =>
    intro s h
    exact ih (step env s t) (step_inv env he w0 prog s t h)

theorem holds_inflight (pc : Pc) (h : pc.holds = true) : pc.inflight ≠ [] := by
  cases pc <;> simp [Pc.holds, Pc.inflight] at h ⊢

theorem callsBy_length_sum (n : Nat) (recs : List Rec) (h : ∀ r ∈ recs, r.tid < n) :
    recs.length = ∑ t in Finset.range n, (callsBy recs t).length := by
  induction recs with
  | nil => simp [callsBy]
  | cons r rest ih =>
    have hr : r.tid < n := h r (List.mem_cons_self _ _)
    have ih2 := ih (fun x hx => h x (List.mem_cons_of_mem _ hx))
    have e : ∀ t, (callsBy (r :: rest) t).length =
        (if r.tid = t then 1 else 0) + (callsBy rest t).length := by
      intro t
      by_cases ht : r.tid = t
      · simp [callsBy, List.filter_cons, ht, Nat.add_comm]
      · simp [callsBy, List.filter_cons, ht]
    simp only [e, Finset.sum_add_distrib, List.length_cons]
    rw [Finset.sum_ite_eq (Finset.range n) r.tid (fun _ => 1)]
    simp only [Finset.mem_range, hr, if_true]
    omega

theorem mem_callsBy (recs : List Rec) (r : Rec) (h : r ∈ recs) :
    (r.level, r.message) ∈ callsBy recs r.tid := by
  simp only [callsBy, List.mem_map, List.mem_filter]
  exact ⟨r, ⟨h, by simp⟩, rfl⟩

theorem world_ext (a b : World) (h1 : a.logLevel_ = b.logLevel_)
    (h2 : a.outputStream_ = b.outputStream_) (h3 : a.logFile_ = b.logFile_)
    (h4 : ∀ o, a.streams o = b.streams o) (h5 : ∀ p, a.files p = b.files p)
    (h6 : a.clockReads = b.clockReads) (h7 : a.opens = b.opens) : a = b := by
  cases a; cases b
  simp only [World.mk.injEq] at *
  exact ⟨h1, h2, h3, funext h4, funext h5, h6, h7⟩

/-- A `Logger::log` call run by one thread without interruption, action by action,
has the effect of the sequential `Logger.log`. -/
theorem solo_log (env : Env) (w : World) (level : LogLevel) (message : Value) (t : Nat)
    (rest : List Op) (threads : Nat → Thread)
    (h : threads t = ⟨.idle, .log level message :: rest⟩) :
    ∃ k, k ≤ 10 ∧
      (runSchedule env ⟨w, none, threads⟩ (List.replicate k t)).world =
        Logger.log env level message w ∧
      (runSchedule env ⟨w, none, threads⟩ (List.replicate k t)).mutex = none ∧
      (runSchedule env ⟨w, none, threads⟩ (List.replicate k t)).threads t = ⟨.idle, rest⟩ := by
  cases he : env.LOGGING_ENABLED with
  | false =>
    refine ⟨1, by omega, ?_, ?_, ?_⟩ <;>
      simp [runSchedule, List.replicate, step, enter, h, he, log_disabled env he]
  | true =>
    by_cases hp : w.logLevel_.toNat ≤ level.toNat
    · rcases Option.eq_none_or_eq_some w.logFile_ with hf | ⟨path, hf⟩
      · refine ⟨7, by omega, ?_, ?_, ?_⟩
        · rw [log_closed env he level message w hp hf]
          apply world_ext
          all_goals
            simp [runSchedule, List.replicate, step, enter, h, he, hp, Sys.goto, Sys.setThread,
              Logger.logPrefix, World.writeStream, World.is_open, hf, string_append_assoc]
          all_goals (intro x; split_ifs <;> rfl)
        · simp [runSchedule, List.replicate, step, enter, h, he, hp, Sys.goto, Sys.setThread,
            Logger.logPrefix, World.writeStream, World.is_open, hf]
        · simp [runSchedule, List.replicate, step, enter, h, he, hp, Sys.goto, Sys.setThread,
            Logger.logPrefix, World.writeStream, World.is_open, hf]
      · refine ⟨10, by omega, ?_, ?_, ?_⟩
        · rw [log_open env he level message w hp path hf]
          apply world_ext
          all_goals
            simp [runSchedule, List.replicate, step, enter, h, he, hp, Sys.goto, Sys.setThread,
              Logger.logPrefix, World.writeStream, World.is_open, hf, string_append_assoc,
              World.writeLogFile, World.writeFile]
          all_goals (intro x; split_ifs <;> rfl)
        · simp [runSchedule, List.replicate, step, enter, h, he, hp, Sys.goto, Sys.setThread,
            Logger.logPrefix, World.writeStream, World.is_open, hf, World.writeLogFile,
            World.writeFile]
        · simp [runSchedule, List.replicate, step, enter, h, he, hp, Sys.goto, Sys.setThread,
            Logger.logPrefix, World.writeStream, World.is_open, hf, World.writeLogFile,
            World.writeFile]
    · refine ⟨1, by omega, ?_, ?_, ?_⟩ <;>
        simp [runSchedule, List.replicate, step, enter, h, he, hp,
          log_filtered env level message w (by omega)]

/-- A `Logger::setLogFile` call run by one thread without interruption has the effect
of the sequential `Logger.setLogFile`. -/
theorem solo_setLogFile (env : Env) (w : World) (filename : String) (t : Nat)
    (rest : List Op) (threads : Nat → Thread)
    (h : threads t = ⟨.idle, .setLogFile filename :: rest⟩) :
    ∃ k, k ≤ 5 ∧
      (runSchedule env ⟨w, none, threads⟩ (List.replicate k t)).world =
        Logger.setLogFile env filename w ∧
      (runSchedule env ⟨w, none, threads⟩ (List.replicate k t)).mutex = none ∧
      (runSchedule env ⟨w, none, threads⟩ (List.replicate k t)).threads t = ⟨.idle, rest⟩ := by
  cases he : env.LOGGING_ENABLED with
  | false =>
    refine ⟨1, by omega, ?_, ?_, ?_⟩ <;>
      simp [runSchedule, List.replicate, step, enter, h, he, Logger.setLogFile]
  | true =>
    rcases Option.eq_none_or_eq_some w.logFile_ with hf | ⟨path, hf⟩
    · cases hok : env.openOk w.opens filename with
      | true =>
        refine ⟨3, by omega, ?_, ?_, ?_⟩ <;>
          simp [runSchedule, List.replicate, step, enter, h, he, Sys.goto, Sys.setThread,
            Logger.setLogFile, World.is_open, World.open, World.close, World.writeStream, hf, hok]
      | false =>
        refine ⟨4, by omega, ?_, ?_, ?_⟩ <;>
          simp [runSchedule, List.replicate, step, enter, h, he, Sys.goto, Sys.setThread,
            Logger.setLogFile, World.is_open, World.open, World.close, World.writeStream, hf, hok]
    · cases hok : env.openOk w.opens filename with
      | true =>
        refine ⟨4, by omega, ?_, ?_, ?_⟩ <;>
          simp [runSchedule, List.replicate, step, enter, h, he, Sys.goto, Sys.setThread,
            Logger.setLogFile, World.is_open, World.open, World.close, World.writeStream, hf, hok]
      | false =>
        refine ⟨5, by omega, ?_, ?_, ?_⟩ <;>
          simp [runSchedule, List.replicate, step, enter, h, he, Sys.goto, Sys.setThread,
            Logger.setLogFile, World.is_open, World.open, World.close, World.writeStream, hf, hok]

/-! ### No deadlock -/

theorem runSchedule_append (env : Env) (s : Sys) (a b : List Nat) :
    runSchedule env s (a ++ b) = runSchedule env (runSchedule env s a) b := by
  simp [runSchedule, List.foldl_append]

theorem step_other (env : Env) (s : Sys) (t u : Nat) (h : u ≠ t) :
    (step env s t).threads u = s.threads u := by
  unfold step
  split
  · split
    · rfl
    · unfold enter
      split <;> (try split) <;> (try split) <;> simp [h]
  · split <;> simp [h]
  all_goals (try split) <;> simp [h]

theorem runSolo_other (env : Env) (t u : Nat) (h : u ≠ t) (k : Nat) :
    ∀ s, (runSchedule env s (List.replicate k t)).threads u = s.threads u := by
  induction k with
  | zero => intro s; rfl
  | succ k ih =>
    intro s
    have : runSchedule env s (List.replicate (k + 1) t) =
        runSchedule env (step env s t) (List.replicate k t) := rfl
    rw [this, ih, step_other env s t u h]

/-- A thread that can move and is inside a call gets strictly closer to returning. -/
theorem step_progress (env : Env) (s : Sys) (t : Nat) (hr : Ready s t)
    (hpc : (s.threads t).pc ≠ .idle) :
    Ready (step env s t) t ∧
      ((step env s t).threads t).pc.rank < (s.threads t).pc.rank ∧
      ((step env s t).threads t).todo = (s.threads t).todo := by
  unfold Ready at hr ⊢
  cases h : (s.threads t).pc with
  | idle => exact absurd h hpc
  | acquire level message =>
    have hm : s.mutex = none := by
      rcases hr with ⟨h1, _⟩ | ⟨_, h2⟩
      · rw [h] at h1; cases h1
      · exact h2
    simp [step, h, hm, Pc.holds, Pc.rank]
  | fileTest level message =>
    have hm : s.mutex = some t := by
      rcases hr with ⟨_, h2⟩ | ⟨h1, _⟩
      · exact h2
      · rw [h] at h1; cases h1
    cases ho : s.world.is_open <;> simp [step, h, hm, ho, Pc.holds, Pc.rank]
  | sCheck filename =>
    have hm : s.mutex = none := by
      rcases hr with ⟨h1, _⟩ | ⟨_, h2⟩
      · rw [h] at h1; cases h1
      · exact h2
    cases ho : s.world.is_open <;> simp [step, h, hm, ho, Pc.holds, Pc.rank]
  | conPrefix level message =>
    have hm : s.mutex = some t := by
      rcases hr with ⟨_, h2⟩ | ⟨h1, _⟩
      · exact h2
      · rw [h] at h1; cases h1
    simp [step, h, hm, Pc.holds, Pc.rank, Logger.logPrefix]
  | conText level message o =>
    have hm : s.mutex = some t := by
      rcases hr with ⟨_, h2⟩ | ⟨h1, _⟩
      · exact h2
      · rw [h] at h1; cases h1
    simp [step, h, hm, Pc.holds, Pc.rank]
  | conEndl level message o =>
    have hm : s.mutex = some t := by
      rcases hr with ⟨_, h2⟩ | ⟨h1, _⟩
      · exact h2
      · rw [h] at h1; cases h1
    simp [step, h, hm, Pc.holds, Pc.rank]
  | filePrefix level message =>
    have hm : s.mutex = some t := by
      rcases hr with ⟨_, h2⟩ | ⟨h1, _⟩
      · exact h2
      · rw [h] at h1; cases h1
    simp [step, h, hm, Pc.holds, Pc.rank, Logger.logPrefix]
  | fileText level message =>
    have hm : s.mutex = some t := by
      rcases hr with ⟨_, h2⟩ | ⟨h1, _⟩
      · exact h2
      · rw [h] at h1; cases h1
    simp [step, h, hm, Pc.holds, Pc.rank]
  | fileEndl level message =>
    have hm : s.mutex = some t := by
      rcases hr with ⟨_, h2⟩ | ⟨h1, _⟩
      · exact h2
      · rw [h] at h1; cases h1
    simp [step, h, hm, Pc.holds, Pc.rank]
  | release level message =>
    simp [step, h, Pc.holds, Pc.rank]
  | sClose filename =>
    have hm : s.mutex = none := by
      rcases hr with ⟨h1, _⟩ | ⟨_, h2⟩
      · rw [h] at h1; cases h1
      · exact h2
    simp [step, h, hm, Pc.holds, Pc.rank]
  | sOpen filename =>
    have hm : s.mutex = none := by
      rcases hr with ⟨h1, _⟩ | ⟨_, h2⟩
      · rw [h] at h1; cases h1
      · exact h2
    simp [step, h, hm, Pc.holds, Pc.rank]
  | sDiag filename =>
    have hm : s.mutex = none := by
      rcases hr with ⟨h1, _⟩ | ⟨_, h2⟩
      · rw [h] at h1; cases h1
      · exact h2
    simp [step, h, hm, Pc.holds, Pc.rank]

/-- A thread that can move returns from its current call after finitely many of its
own actions. -/
theorem finish_current (env : Env) (t : Nat) :
    ∀ (r : Nat) (s : Sys), (s.threads t).pc.rank ≤ r → Ready s t →
      ∃ k, Ready (runSchedule env s (List.replicate k t)) t ∧
        ((runSchedule env s (List.replicate k t)).threads t).pc = .idle ∧
        ((runSchedule env s (List.replicate k t)).threads t).todo = (s.threads t).todo := by
  intro r
  induction r with
  | zero =>
    intro s hrank hr
    have hidle : (s.threads t).pc = .idle := by
      cases h : (s.threads t).pc <;> simp_all [Pc.rank]
    exact ⟨0, hr, hidle, rfl⟩
  | succ r ih =>
    intro s hrank hr
    by_cases hpc : (s.threads t).pc = .idle
    · exact ⟨0, hr, hpc, rfl⟩
    · obtain ⟨h1, h2, h3⟩ := step_progress env s t hr hpc
      obtain ⟨k, h4, h5, h6⟩ := ih (step env s t) (by omega) h1
      exact ⟨k + 1, h4, h5, h6.trans h3⟩

/-- A thread between calls that can move enters its next call. -/
theorem enter_progress (env : Env) (s : Sys) (t : Nat) (op : Op) (rest : List Op)
    (hr : Ready s t) (hpc : (s.threads t).pc = .idle)
    (htodo : (s.threads t).todo = op :: rest) :
    Ready (step env s t) t ∧ ((step env s t).threads t).todo = rest := by
  have hm : s.mutex = none := by
    rcases hr with ⟨h1, _⟩ | ⟨_, h2⟩
    · rw [hpc] at h1; cases h1
    · exact h2
  unfold Ready
  cases op with
  | setLogLevel level => simp [step, hpc, htodo, enter, hm, Pc.holds]
  | setOutputStream stream => simp [step, hpc, htodo, enter, hm, Pc.holds]
  | setLogFile filename =>
    cases he : env.LOGGING_ENABLED <;> cases ho : s.world.is_open <;>
      simp [step, hpc, htodo, enter, hm, Pc.holds, he, ho]
  | log level message =>
    by_cases hc : env.LOGGING_ENABLED = true ∧ level.toNat ≥ s.world.logLevel_.toNat
    · simp only [step, hpc, htodo, enter, if_pos hc]
      simp [hm, Pc.holds]
    · simp only [step, hpc, htodo, enter, if_neg hc]
      simp [hm, Pc.holds]
  | logVia level message =>
    by_cases hc : env.LOGGING_ENABLED = true ∧ level.toNat ≥ s.world.logLevel_.toNat
    · simp only [step, hpc, htodo, enter, if_pos hc]
      simp [hm, Pc.holds]
    · simp only [step, hpc, htodo, enter, if_neg hc]
      simp [hm, Pc.holds]

/-- A thread that can move completes all its calls after finitely many of its own
actions, and leaves the mutex free. -/
theorem run_thread (env : Env) (t : Nat) :
    ∀ (n : Nat) (s : Sys), (s.threads t).todo.length = n → Ready s t →
      ∃ k, (runSchedule env s (List.replicate k t)).mutex = none ∧
        ((runSchedule env s (List.replicate k t)).threads t).pc = .idle ∧
        ((runSchedule env s (List.replicate k t)).threads t).todo = [] := by
  intro n
  induction n with
  | zero =>
    intro s hlen hr
    obtain ⟨k, h1, h2, h3⟩ := finish_current env t _ s (le_refl _) hr
    refine ⟨k, ?_, h2, ?_⟩
    · rcases h1 with ⟨h, _⟩ | ⟨_, h⟩
      · rw [h2] at h; cases h
      · exact h
    · rw [h3]; exact List.length_eq_zero.1 hlen
  | succ n ih =>
    intro s hlen hr
    obtain ⟨k, h1, h2, h3⟩ := finish_current env t _ s (le_refl _) hr
    cases htodo : (s.threads t).todo with
    | nil => rw [htodo] at hlen; cases hlen
    | cons op rest =>
      rw [htodo] at h3 hlen
      obtain ⟨h4, h5⟩ := enter_progress env _ t op rest h1 h2 h3
      obtain ⟨j, h6, h7, h8⟩ := ih (step env (runSchedule env s (List.replicate k t)) t)
        (by rw [h5]; simpa using hlen) h4
      refine ⟨k + (1 + j), ?_⟩
      have e : runSchedule env s (List.replicate (k + (1 + j)) t) =
          runSchedule env (step env (runSchedule env s (List.replicate k t)) t)
            (List.replicate j t) := by
        rw [List.replicate_add, runSchedule_append, List.replicate_add, runSchedule_append]
        rfl
      rw [e]
      exact ⟨h6, h7, h8⟩

/-- With the mutex free and no thread inside the guarded block, some schedule lets
the threads `0 .. n-1` complete all their calls. -/
theorem run_all (env : Env) :
    ∀ (n : Nat) (s : Sys), s.mutex = none → (∀ u, (s.threads u).pc.holds = false) →
      ∃ schedule, (runSchedule env s schedule).finished n ∧
        (runSchedule env s schedule).mutex = none ∧
        ∀ u, ((runSchedule env s schedule).threads u).pc.holds = false := by
  intro n
  induction n with
  | zero =>
    intro s hm hno
    exact ⟨[], fun t ht => absurd ht (Nat.not_lt_zero t), hm, hno⟩
  | succ n ih =>
    intro s hm hno
    obtain ⟨sched, hfin, hm1, hno1⟩ := ih s hm hno
    obtain ⟨k, h1, h2, h3⟩ := run_thread env n _ (runSchedule env s sched) rfl
      (Or.inr ⟨hno1 n, hm1⟩)
    refine ⟨sched ++ List.replicate k n, ?_, ?_, ?_⟩
    · intro t ht
      rw [runSchedule_append]
      by_cases htn : t = n
      · subst htn; exact ⟨h2, h3⟩
      · rw [runSolo_other env n t htn k]
        exact hfin t (by omega)
    · rw [runSchedule_append]; exact h1
    · intro u
      rw [runSchedule_append]
      by_cases hun : u = n
      · subst hun; rw [h2]; rfl
      · rw [runSolo_other env n u hun k]
        exact hno1 u

/-- From any state in which the mutex is held exactly by the thread inside the
guarded block, some continuation lets the threads `0 .. n-1` complete all their
calls: a thread waiting for the mutex is never stuck for good. -/
theorem no_deadlock (env : Env) (n : Nat) (s : Sys)
    (hmx : ∀ t, (s.threads t).pc.holds = true ↔ s.mutex = some t) :
    ∃ more, (runSchedule env s more).finished n := by
  cases hm : s.mutex with
  | none =>
    have hno : ∀ u, (s.threads u).pc.holds = false := by
      intro u
      cases hh : (s.threads u).pc.holds with
      | false => rfl
      | true => have := (hmx u).1 hh; rw [hm] at this; cases this
    obtain ⟨sched, hfin, _, _⟩ := run_all env n s hm hno
    exact ⟨sched, hfin⟩
  | some h =>
    obtain ⟨k, h1, h2, _⟩ := run_thread env h _ s rfl (Or.inl ⟨(hmx h).2 hm, hm⟩)
    have hno : ∀ u, ((runSchedule env s (List.replicate k h)).threads u).pc.holds = false := by
      intro u
      by_cases hu : u = h
      · subst hu; rw [h2]; rfl
      · rw [runSolo_other env h u hu k]
        cases hh : (s.threads u).pc.holds with
        | false => rfl
        | true =>
          have := (hmx u).1 hh
          rw [hm] at this
          exact absurd (Option.some.inj this).symm hu
    obtain ⟨sched, hfin, _, _⟩ := run_all env n _ h1 hno
    exact ⟨List.replicate k h ++ sched, by rw [runSchedule_append]; exact hfin⟩

set_option maxRecDepth 100000

/-- Claim C10, as stated, fails: thread 0 is inside the guarded block of
`Logger::log` (it holds the mutex and has written its console line and the prefix of
its file line) when thread 1 runs `setLogFile("other.log")` from start to end without
waiting; thread 0 then finishes its line in the new file.  `log.log` ends with an
unterminated prefix and `other.log` holds a text without prefix. -/
theorem C10_counterexample :
    (runSchedule sampleEnv (Sys.start sampleOpenWorld loggerAndSetter) (racing.take 7)).mutex =
      some 0 ∧
    ((runSchedule sampleEnv (Sys.start sampleOpenWorld loggerAndSetter)
      (racing.take 7)).threads 0).pc = Pc.fileText .ERROR (.str "a") ∧
    (runSchedule sampleEnv (Sys.start sampleOpenWorld loggerAndSetter) (racing.take 11)).mutex =
      some 0 ∧
    ((runSchedule sampleEnv (Sys.start sampleOpenWorld loggerAndSetter)
      (racing.take 11)).threads 1).pc = Pc.idle ∧
    ((runSchedule sampleEnv (Sys.start sampleOpenWorld loggerAndSetter)
      (racing.take 11)).threads 1).todo = [] ∧
    (runSchedule sampleEnv (Sys.start sampleOpenWorld loggerAndSetter)
      (racing.take 11)).world.logFile_ = some "other.log" ∧
    (runSchedule sampleEnv (Sys.start sampleOpenWorld loggerAndSetter) racing).finished 2 ∧
    (runSchedule sampleEnv (Sys.start sampleOpenWorld loggerAndSetter) racing).world.streams
      .cout = "2024-01-02 03:04:05 [ERROR]: a\n" ∧
    (runSchedule sampleEnv (Sys.start sampleOpenWorld loggerAndSetter) racing).world.files
      "log.log" = "2024-01-02 03:04:06 [ERROR]: " ∧
    (runSchedule sampleEnv (Sys.start sampleOpenWorld loggerAndSetter) racing).world.files
      "other.log" = "a\n" := by
  decide

/-- Claim C10, amended: when the threads make only `Logger::log` calls (directly or
through the wrappers), then under every schedule at most one thread is inside the
guarded block, and there is a sequence of finished calls, each thread's in its program
order, such that the console sink holds the old contents, then exactly the complete
lines of these calls, then what the holder of the mutex has written of its own line
(nothing when the mutex is free), and the open log file holds the lines of the same
calls in the same order; once `n` threads with `m` writing calls each have finished,
the mutex is free and that sequence consists of all their writing calls, `n * m` lines;
and every state can be continued to one in which they have finished.  Nothing is
claimed for schedules that contain a setter. -/
theorem C10_logging_threads_serialised (env : Env) (he : env.LOGGING_ENABLED = true)
    (w0 : World) (prog : Nat → List Op) (hprog : ∀ t, ∀ op ∈ prog t, op.isLog = true)
    (schedule : List Nat) (s : Sys) (hs : s = runSchedule env (Sys.start w0 prog) schedule) :
    (∀ t u, (s.threads t).pc.holds = true → (s.threads u).pc.holds = true → t = u) ∧
    ∃ recs : List Rec,
      (∀ t, ∃ rest, callsBy recs t ++ rest = emitted w0.logLevel_ (prog t)) ∧
      Out env w0 recs s ∧
      (s.mutex = none →
        s.world.streams w0.outputStream_ =
            w0.streams w0.outputStream_ ++ consoleLines env recs ∧
          ∀ p, w0.logFile_ = some p →
            s.world.files p = w0.files p ++ fileLines env recs) ∧
      (∀ n, (∀ t, n ≤ t → prog t = []) → s.finished n →
        s.mutex = none ∧
          (∀ t, callsBy recs t = emitted w0.logLevel_ (prog t)) ∧
          ∀ m, (∀ t, t < n → (emitted w0.logLevel_ (prog t)).length = m) →
            recs.length = n * m) ∧
      ∀ n, ∃ more, (runSchedule env s more).finished n := by
  have hinv : Inv env w0 prog s := by
    rw [hs]
    exact runSchedule_inv env he w0 prog schedule _ (inv_start env w0 prog hprog)
  obtain ⟨_, _, _, hmx, recs, hth, hO⟩ := hinv
  refine ⟨?_, recs, ?_, hO, ?_, ?_, fun n => no_deadlock env n s hmx⟩
  · intro t u ht hu
    have h1 := (hmx t).1 ht
    have h2 := (hmx u).1 hu
    rw [h1] at h2
    exact Option.some.inj h2
  · intro t
    obtain ⟨_, _, h3⟩ := hth t
    exact ⟨_, by rw [← h3, List.append_assoc]⟩
  · intro hm
    unfold Out at hO
    have e : s.holderPc = .idle := by simp [Sys.holderPc, hm]
    rw [e] at hO
    obtain ⟨r, _, hC, hF⟩ := hO
    refine ⟨by simpa [partials, string_append_empty] using hC, ?_⟩
    intro p hp
    simpa [partials, string_append_empty] using hF p hp
  · intro n hn hfin
    have hidle : ∀ t, (s.threads t).pc.inflight = [] ∧
        emitted w0.logLevel_ (s.threads t).todo = [] := by
      intro t
      by_cases ht : t < n
      · obtain ⟨h1, h2⟩ := hfin t ht
        rw [h1, h2]
        exact ⟨rfl, rfl⟩
      · have h3 := (hth t).2.2
        rw [hn t (by omega)] at h3
        have h4 : callsBy recs t ++ (s.threads t).pc.inflight ++
            emitted w0.logLevel_ (s.threads t).todo = [] := h3
        simp only [List.append_eq_nil] at h4
        exact ⟨h4.1.2, h4.2⟩
    have hall : ∀ t, callsBy recs t = emitted w0.logLevel_ (prog t) := by
      intro t
      have h3 := (hth t).2.2
      rw [(hidle t).1, (hidle t).2] at h3
      simpa using h3
    have hm : s.mutex = none := by
      cases hmm : s.mutex with
      | none => rfl
      | some t =>
        have := (hmx t).2 hmm
        exact absurd (hidle t).1 (holds_inflight _ this)
    refine ⟨hm, hall, ?_⟩
    intro m hlen
    have htid : ∀ r ∈ recs, r.tid < n := by
      intro r hr
      by_contra hge
      have h5 := mem_callsBy recs r hr
      rw [hall r.tid, hn r.tid (by omega)] at h5
      simp [emitted] at h5
    rw [callsBy_length_sum n recs htid]
    have : ∀ t ∈ Finset.range n, (callsBy recs t).length = m := by
      intro t ht
      rw [hall t]
      exact hlen t (Finset.mem_range.1 ht)
    rw [Finset.sum_congr rfl this]
    simp

theorem twoLoggers_isLog : ∀ t, ∀ op ∈ twoLoggers t, op.isLog = true := by
  intro t op hop
  unfold twoLoggers at hop
  split at hop
  · simp at hop; rcases hop with h | h <;> subst h <;> rfl
  · split at hop
    · simp at hop; rcases hop with h | h <;> subst h <;> rfl
    · simp at hop

theorem twoLoggers_beyond : ∀ t, 2 ≤ t → twoLoggers t = [] := by
  intro t ht
  have h0 : t ≠ 0 := by omega
  have h1 : t ≠ 1 := by omega
  simp [twoLoggers, h0, h1]

/-- Instance of the amended C10: two threads with two writing calls each, run to
completion under a schedule in which each waits for the other; four complete lines
reach `std::cout`, and the file holds the lines of the same calls in the same order. -/
theorem C10_logging_threads_serialised_witness :
    sampleEnv.LOGGING_ENABLED = true ∧
    (∀ t, ∀ op ∈ twoLoggers t, op.isLog = true) ∧
    (runSchedule sampleEnv (Sys.start sampleOpenWorld twoLoggers) interleaved).finished 2 ∧
    (∃ recs : List Rec, recs.length = 2 * 2 ∧
      (runSchedule sampleEnv (Sys.start sampleOpenWorld twoLoggers)
        interleaved).world.streams .cout = "" ++ consoleLines sampleEnv recs ∧
      (runSchedule sampleEnv (Sys.start sampleOpenWorld twoLoggers)
        interleaved).world.files "log.log" = "" ++ fileLines sampleEnv recs) ∧
    (runSchedule sampleEnv (Sys.start sampleOpenWorld twoLoggers)
      interleaved).world.streams .cout =
      "2024-01-02 03:04:05 [WARNING]: b1\n2024-01-02 03:04:07 [INFO]: a1\n" ++
        "2024-01-02 03:04:09 [CRITICAL]: b2\n2024-01-02 03:04:11 [ERROR]: a2\n" := by
  refine ⟨rfl, twoLoggers_isLog, by decide, ?_, by decide⟩
  obtain ⟨_, recs, _, _, hfree, hdone, _⟩ :=
    C10_logging_threads_serialised sampleEnv rfl sampleOpenWorld twoLoggers twoLoggers_isLog
      interleaved _ rfl
  obtain ⟨hm, _, hcount⟩ := hdone 2 twoLoggers_beyond (by decide)
  obtain ⟨hC, hF⟩ := hfree hm
  refine ⟨recs, hcount 2 ?_, hC, hF "log.log" (by decide)⟩
  intro t ht
  interval_cases t <;> decide

end SimpleLogger
